import Mathlib

set_option linter.unusedVariables false

/-!
Shallow embedding of the arrow2-convert encode/decode engine.

The embedding models:
- `arrow2::datatypes::DataType` (restricted to the kinds exercised by the claims);
- the arrow2 mutable arrays used by the crate (`MutablePrimitiveArray`,
  `MutableBooleanArray`, `MutableUtf8Array`, `MutableListArray`,
  `MutableFixedSizeListArray`), which the spec treats as external primitives
  with known semantics;
- the sealed array universe (`dyn Array`) as the inductive `Arr`;
- the code generated by `arrow2_convert_derive` for concrete struct and enum
  types, monomorphised exactly as the derive macros emit it
  (`derive_struct.rs`, `derive_enum.rs`);
- the top-level entry points `try_into_arrow` (serialize.rs) and
  `try_into_collection` / `arrow_array_deserialize_iterator_as_type`
  (deserialize.rs).

Machine integers are modelled as `Int` (no arithmetic overflow is exercised by
any claim); Rust panics are modelled by the `panicked` outcome of
`DecodeResult`, and `arrow2::error::Result` errors by `err`.
-/

mutual

/-- Model of `arrow2::datatypes::DataType`, restricted to the kinds the
embedded types use. -/
inductive DataType : Type where
  | int64 : DataType
  | boolean : DataType
  | utf8 : DataType
  | list : FieldSpec → DataType
  | fixedSizeList : FieldSpec → Nat → DataType
  | strukt : List FieldSpec → DataType
  | union : List FieldSpec → Bool → DataType

/-- Model of `arrow2::datatypes::Field`: a name, a data type and a
nullability flag. -/
inductive FieldSpec : Type where
  | mk : String → DataType → Bool → FieldSpec

end

mutual

/-- Structural equality on data types, mirroring `PartialEq` on
`arrow2::datatypes::DataType` (used by the decode preflight check). -/
def DataType.beq : DataType → DataType → Bool
  | .int64, .int64 => true
  | .boolean, .boolean => true
  | .utf8, .utf8 => true
  | .list f, .list g => FieldSpec.beq f g
  | .fixedSizeList f n, .fixedSizeList g m => FieldSpec.beq f g && n == m
  | .strukt fs, .strukt gs => FieldSpec.beqList fs gs
  | .union fs d, .union gs e => FieldSpec.beqList fs gs && d == e
  | _, _ => false

/-- Structural equality on fields. -/
def FieldSpec.beq : FieldSpec → FieldSpec → Bool
  | .mk n d b, .mk n2 d2 b2 => n == n2 && DataType.beq d d2 && b == b2

/-- Structural equality on field lists. -/
def FieldSpec.beqList : List FieldSpec → List FieldSpec → Bool
  | [], [] => true
  | f :: fs, g :: gs => FieldSpec.beq f g && FieldSpec.beqList fs gs
  | _, _ => false

end

mutual

theorem DataType.beq_iff : ∀ a b : DataType, DataType.beq a b = true ↔ a = b
  | .int64, b => by cases b <;> simp [DataType.beq]
  | .boolean, b => by cases b <;> simp [DataType.beq]
  | .utf8, b => by cases b <;> simp [DataType.beq]
  | .list f, b => by
      cases b <;> simp [DataType.beq, FieldSpec.beq_iff_fs f]
  | .fixedSizeList f n, b => by
      cases b <;> simp [DataType.beq, FieldSpec.beq_iff_fs f]
  | .strukt fs, b => by
      cases b <;> simp [DataType.beq, FieldSpec.beqList_iff fs]
  | .union fs d, b => by
      cases b <;> simp [DataType.beq, FieldSpec.beqList_iff fs]

theorem FieldSpec.beq_iff_fs : ∀ a b : FieldSpec, FieldSpec.beq a b = true ↔ a = b
  | .mk n d bl, .mk n2 d2 bl2 => by
      simp [FieldSpec.beq, DataType.beq_iff d, and_assoc]

theorem FieldSpec.beqList_iff :
    ∀ a b : List FieldSpec, FieldSpec.beqList a b = true ↔ a = b
  | [], [] => by simp [FieldSpec.beqList]
  | [], _ :: _ => by simp [FieldSpec.beqList]
  | _ :: _, [] => by simp [FieldSpec.beqList]
  | f :: fs, g :: gs => by
      simp [FieldSpec.beqList, FieldSpec.beq_iff_fs f, FieldSpec.beqList_iff fs]

end

instance : DecidableEq DataType := fun a b =>
  decidable_of_iff (DataType.beq a b = true) (DataType.beq_iff a b)

instance : DecidableEq FieldSpec := fun a b =>
  decidable_of_iff (FieldSpec.beq a b = true) (FieldSpec.beq_iff_fs a b)

/-- A validity bitmap: one bit per logical position, `true` = present. -/
abbrev Bitmap := List Bool

/-- The sealed (immutable) array universe, the embedding of `dyn Array`.
Constructors carry the buffers the corresponding arrow2 array stores:
- `prim`: `PrimitiveArray<i64>` (values buffer, optional validity);
- `boolean`: `BooleanArray`;
- `utf8`: `Utf8Array<i32>` (the offsets/bytes pair abstracted to its list of
  decoded strings, the granularity at which the crate reads it);
- `list`: `ListArray<i32>` (offsets buffer of length n+1, child values array,
  optional validity), plus its embedded data type;
- `fixedList`: `FixedSizeListArray` (element size, child values, validity);
- `strukt`: `StructArray` (child arrays, validity);
- `union`: `UnionArray` (type-ids buffer, variant arrays, and for dense mode
  the per-element offsets buffer). -/
inductive Arr : Type where
  | prim : List Int → Option Bitmap → Arr
  | boolean : List Bool → Option Bitmap → Arr
  | utf8 : List String → Option Bitmap → Arr
  | list : DataType → List Nat → Arr → Option Bitmap → Arr
  | fixedList : DataType → Nat → Arr → Option Bitmap → Arr
  | strukt : DataType → List Arr → Option Bitmap → Arr
  | union : DataType → List Int → List Arr → Option (List Int) → Arr

/-- The data type embedded in a sealed array (`Array::data_type`).  The scalar
constructors model only the one arrow2 array type the crate instantiates for
them, so their data type is fixed. -/
def Arr.dataType : Arr → DataType
  | .prim _ _ => .int64
  | .boolean _ _ => .boolean
  | .utf8 _ _ => .utf8
  | .list dt _ _ _ => dt
  | .fixedList dt _ _ _ => dt
  | .strukt dt _ _ => dt
  | .union dt _ _ _ => dt

/-- Slice a buffer modelled as a list: keep `len` elements from `i`. -/
def sliceList (xs : List α) (i len : Nat) : List α :=
  (xs.drop i).take len

/-- Slice an optional validity bitmap. -/
def sliceValidity (v : Option Bitmap) (i len : Nat) : Option Bitmap :=
  v.map (fun bs => sliceList bs i len)

/-- Model of `Array::sliced(offset, length)` as arrow2 implements it for each array
kind: primitive/boolean/utf8 arrays slice values and validity; a list array
slices its offsets buffer (keeping `length+1` entries) and validity but not
its child; a fixed-size list slices its child by `offset*size`; a struct
array slices its validity and every child; a union array slices its type-ids
buffer and (dense) offsets buffer but leaves the variant arrays untouched. -/
def Arr.sliced : Arr → Nat → Nat → Arr
  | .prim vs va, i, len => .prim (sliceList vs i len) (sliceValidity va i len)
  | .boolean vs va, i, len => .boolean (sliceList vs i len) (sliceValidity va i len)
  | .utf8 vs va, i, len => .utf8 (sliceList vs i len) (sliceValidity va i len)
  | .list dt offs child va, i, len =>
      .list dt (sliceList offs i (len + 1)) child (sliceValidity va i len)
  | .fixedList dt sz child va, i, len =>
      .fixedList dt sz (child.sliced (i * sz) (len * sz)) (sliceValidity va i len)
  | .strukt dt children va, i, len =>
      .strukt dt (children.attach.map (fun ⟨c, hc⟩ => c.sliced i len)) (sliceValidity va i len)
  | .union dt types fields offs, i, len =>
      .union dt (sliceList types i len) fields (offs.map (fun os => sliceList os i len))
termination_by a _ _ => sizeOf a
decreasing_by
  · simp_wf
    omega
  · have h := List.sizeOf_lt_of_mem hc
    simp_wf
    omega

/-- Logical length of a sealed array (`Array::len`): list length is derived
from the offsets buffer, fixed-size list length from the child length and the
element size, struct length from the first child, union length from the
type-ids buffer. -/
def Arr.len : Arr → Nat
  | .prim vs _ => vs.length
  | .boolean vs _ => vs.length
  | .utf8 vs _ => vs.length
  | .list _ offs _ _ => offs.length - 1
  | .fixedList _ sz child _ => child.len / sz
  | .strukt _ (c :: _) _ => c.len
  | .strukt _ [] _ => 0
  | .union _ types _ _ => types.length

/-- Outcome of the decode pipeline: a successful value, a returned
`arrow2::error::Result` error, or a Rust panic (failed `unwrap`, failed
`assert!`, out-of-bounds index, failed downcast). -/
inductive DecodeResult (α : Type) : Type where
  | ok : α → DecodeResult α
  | err : DecodeResult α
  | panicked : DecodeResult α
deriving DecidableEq

/-- Map over a successful decode outcome. -/
def DecodeResult.map (f : α → β) : DecodeResult α → DecodeResult β
  | .ok a => .ok (f a)
  | .err => .err
  | .panicked => .panicked

/-! ## The arrow2 mutable arrays used by the crate

The spec treats the growable buffer/bitmap primitives as external
collaborators with known semantics (spec section 1 and 6).  `MutPrim` models
`MutablePrimitiveArray<i64>`, `MutableBooleanArray` and `MutableUtf8Array<i32>`
uniformly: a values buffer plus a lazily allocated validity bitmap, where
pushing a null appends the default value (`0`, `false`, the empty string) to
the values buffer. -/

/-- Model of the arrow2 mutable scalar arrays (`MutablePrimitiveArray`,
`MutableBooleanArray`, `MutableUtf8Array`): a values buffer and an optional
validity bitmap. -/
structure MutPrim (α : Type) : Type where
  values : List α
  validity : Option Bitmap
deriving DecidableEq

/-- Fresh empty mutable scalar array (`Default::default()`). -/
def MutPrim.new : MutPrim α := ⟨[], none⟩

/-- Model of `MutableArray::len`. -/
def MutPrim.len (m : MutPrim α) : Nat := m.values.length

/-- The lazily allocated bitmap created by the first pushed null:
all-true for the prior positions, false for the last (just pushed) position.
Mirrors `init_validity` (`extend_constant(len, true)` then
`set(len - 1, false)`), with `len` the length after the null was pushed. -/
def lazyInitValidity (len : Nat) : Bitmap :=
  (List.replicate len true).set (len - 1) false

/-- Model of `MutablePrimitiveArray::push` (and the analogous boolean and
utf8 pushes): on `Some` push the value and a true bit (if a bitmap exists);
on `None` push the default value, and push a false bit into the bitmap,
allocating it lazily on the first null. -/
def MutPrim.push [Inhabited α] (m : MutPrim α) (v : Option α) : MutPrim α :=
  match v with
  | some x =>
      { values := m.values ++ [x]
        validity := m.validity.map (fun bs => bs ++ [true]) }
  | none =>
      let vals := m.values ++ [default]
      match m.validity with
      | some bs => { values := vals, validity := some (bs ++ [false]) }
      | none => { values := vals, validity := some (lazyInitValidity vals.length) }

/-- Model of `MutableArray::push_null`. -/
def MutPrim.push_null [Inhabited α] (m : MutPrim α) : MutPrim α := m.push none

/-- Seal a mutable i64 array (`as_box` to `PrimitiveArray<i64>`). -/
def MutPrim.as_box_prim (m : MutPrim Int) : Arr := .prim m.values m.validity

/-- Seal a mutable boolean array (`as_box` to `BooleanArray`). -/
def MutPrim.as_box_boolean (m : MutPrim Bool) : Arr := .boolean m.values m.validity

/-- Seal a mutable utf8 array (`as_box` to `Utf8Array<i32>`). -/
def MutPrim.as_box_utf8 (m : MutPrim String) : Arr := .utf8 m.values m.validity

/-- Model of `arrow2::array::MutableListArray<i32, MutableUtf8Array<i32>>`,
the mutable array for `Vec<Option<String>>`: an offsets buffer (starting at
`[0]`), the shared child builder, and an optional validity bitmap. -/
structure MutListUtf8 : Type where
  offsets : List Nat
  values : MutPrim String
  validity : Option Bitmap
deriving DecidableEq

/-- Fresh empty mutable list array: offsets `[0]`, empty child. -/
def MutListUtf8.new : MutListUtf8 := ⟨[0], MutPrim.new, none⟩

/-- Model of `MutableListArray::try_push_valid`: record the current child
length as the next offset and push a true validity bit if a bitmap exists. -/
def MutListUtf8.try_push_valid (m : MutListUtf8) : MutListUtf8 :=
  { m with
    offsets := m.offsets ++ [m.values.len]
    validity := m.validity.map (fun bs => bs ++ [true]) }

/-- Model of `MutableFixedSizeListArray<MutablePrimitiveArray<i64>>`, the
mutable array for `FixedSizeVec<i64, SIZE>`: the declared element size, the
shared child builder, and an optional validity bitmap. -/
structure MutFixedPrim : Type where
  size : Nat
  values : MutPrim Int
  validity : Option Bitmap
deriving DecidableEq

/-- Fresh empty mutable fixed-size list array of the given element size. -/
def MutFixedPrim.new (sz : Nat) : MutFixedPrim := ⟨sz, MutPrim.new, none⟩

/-- Model of `MutableFixedSizeListArray::try_push_valid`: fails (with
`Error::Overflow`) when the child length is not a multiple of the declared
size, otherwise pushes a true validity bit if a bitmap exists.  Note the
check runs after the caller has already extended the child builder; the
builder state (first component) keeps those mutations either way, mirroring
the `&mut self` receiver. -/
def MutFixedPrim.try_push_valid (m : MutFixedPrim) : MutFixedPrim × Except Unit Unit :=
  if m.values.len % m.size ≠ 0 then (m, .error ())
  else ({ m with validity := m.validity.map (fun bs => bs ++ [true]) }, .ok ())

/-! ## Sealed-array readers (the arrow2 iterators the crate consumes) -/

/-- Model of the arrow2 `ZipValidity` iterator over a values buffer and an
optional validity bitmap: without a bitmap every element is present; with a
bitmap, position i yields the value when bit i is set and null otherwise. -/
def zipValidityItems (vs : List α) : Option Bitmap → List (Option α)
  | none => vs.map some
  | some bs => List.zipWith (fun b v => if b then some v else none) bs vs

/-- Model of collecting an iterator whose per-element conversion is
`arrow_deserialize(v).unwrap()` (the default `arrow_deserialize_internal` of
`ArrowDeserialize`, deserialize.rs lines 30-35): the first null element makes
the collection panic. -/
def collectUnwrap : List (Option α) → DecodeResult (List α)
  | [] => .ok []
  | none :: _ => .panicked
  | some a :: rest => (collectUnwrap rest).map (fun l => a :: l)

/-- Values of a `ListArray`: element i is the child array sliced over
`[offsets[i], offsets[i+1])` (`ListArray::value`). -/
def listValues (offsets : List Nat) (child : Arr) : List Arr :=
  (List.range (offsets.length - 1)).map
    (fun i => child.sliced (offsets.getD i 0) (offsets.getD (i + 1) 0 - offsets.getD i 0))

/-- Items of the `ListArray` iterator: `ZipValidity` over the per-element
child slices. -/
def listItems (offsets : List Nat) (child : Arr) (va : Option Bitmap) : List (Option Arr) :=
  zipValidityItems (listValues offsets child) va

/-- Values of a `FixedSizeListArray` of length n: element i is the child
array sliced over `[i*size, (i+1)*size)` (`FixedSizeListArray::value`). -/
def fixedListValues (sz n : Nat) (child : Arr) : List Arr :=
  (List.range n).map (fun i => child.sliced (i * sz) sz)

/-- Items of the `FixedSizeListArray` iterator. -/
def fixedListItems (sz : Nat) (child : Arr) (va : Option Bitmap) : List (Option Arr) :=
  zipValidityItems (fixedListValues sz (child.len / sz) child) va

/-! ## The embedded native record types

The concrete monomorphic types the claims exercise.  `StructA` is the
single-field struct of the spec examples (`Struct{a}`), `Outer` is a struct
with a nullable struct child, `DU` and `SU` are a dense and a sparse tagged
union, each with a unit variant and an i64 payload variant. -/

/-- Rust `struct StructA { a: i64 }`. -/
structure StructA : Type where
  a : Int
deriving DecidableEq

/-- Rust `struct Outer { inner: Option<StructA>, b: i64 }` (a nested struct
with a nullable struct child). -/
structure Outer : Type where
  inner : Option StructA
  b : Int
deriving DecidableEq

/-- Rust `enum DU { Unit, Payload(i64) }` with `#[arrow_field(type = "dense")]`. -/
inductive DU : Type where
  | unit : DU
  | payload : Int → DU
deriving DecidableEq

/-- Rust `enum SU { Unit, Payload(i64) }` with `#[arrow_field(type = "sparse")]`. -/
inductive SU : Type where
  | unit : SU
  | payload : Int → SU
deriving DecidableEq

/-- Derived `ArrowField::data_type` for `StructA` (`expand_field`). -/
def StructA.dataType : DataType := .strukt [.mk "a" .int64 false]

/-- Derived `ArrowField::data_type` for `Outer`: the `inner` field is
nullable because it is an `Option`. -/
def Outer.dataType : DataType :=
  .strukt [.mk "inner" StructA.dataType true, .mk "b" .int64 false]

/-- Derived `ArrowField::data_type` for `DU`: a dense union whose unit
variant derives as a non-nullable boolean field. -/
def DU.dataType : DataType :=
  .union [.mk "Unit" .boolean false, .mk "Payload" .int64 false] true

/-- Derived `ArrowField::data_type` for `SU` (sparse union). -/
def SU.dataType : DataType :=
  .union [.mk "Unit" .boolean false, .mk "Payload" .int64 false] false

/-! ## Generated mutable arrays (derive_struct.rs, derive_enum.rs) -/

/-- Generated `MutableStructAArray` (`array_decl` in derive_struct.rs): one
child builder per field plus a lazily allocated validity bitmap. -/
structure MutStructA : Type where
  field_a : MutPrim Int
  validity : Option Bitmap
deriving DecidableEq

/-- Generated `MutableStructAArray::new`. -/
def MutStructA.new : MutStructA := ⟨MutPrim.new, none⟩

/-- Generated `MutableArray::len` for the struct builder: the length of the
first child builder. -/
def MutStructA.len (m : MutStructA) : Nat := m.field_a.len

/-- Generated `init_validity` (derive_struct.rs lines 178-184): a bitmap of
all-true bits for the current length with the last bit cleared. -/
def MutStructA.init_validity (m : MutStructA) : MutStructA :=
  { m with validity := some (lazyInitValidity m.len) }

/-- Generated `TryPush::try_push` for `StructA` (derive_struct.rs lines
195-227): on `Some`, serialize every field into its child builder then push a
true validity bit if a bitmap exists; on `None`, push a null onto every child
builder then push a false bit, lazily allocating the bitmap on the first
null.  Serialization of an i64 field cannot fail, so this instance is total. -/
def MutStructA.try_push (m : MutStructA) (item : Option StructA) : MutStructA :=
  match item with
  | some i =>
      let m1 : MutStructA := { m with field_a := m.field_a.push (some i.a) }
      match m1.validity with
      | some bs => { m1 with validity := some (bs ++ [true]) }
      | none => m1
  | none =>
      let m1 : MutStructA := { m with field_a := m.field_a.push_null }
      match m1.validity with
      | some bs => { m1 with validity := some (bs ++ [false]) }
      | none => m1.init_validity

/-- Generated `MutableArray::as_box` for `StructA`: seal every child and wrap
them in a `StructArray` with the derived data type and the accumulated
validity. -/
def MutStructA.as_box (m : MutStructA) : Arr :=
  .strukt StructA.dataType [m.field_a.as_box_prim] m.validity

/-- Generated `MutableOuterArray`. -/
structure MutOuter : Type where
  field_inner : MutStructA
  field_b : MutPrim Int
  validity : Option Bitmap
deriving DecidableEq

/-- Generated `MutableOuterArray::new`. -/
def MutOuter.new : MutOuter := ⟨MutStructA.new, MutPrim.new, none⟩

/-- Generated `MutableArray::len` for `Outer` (first child builder length,
which is in turn the length of the first child of `MutStructA`). -/
def MutOuter.len (m : MutOuter) : Nat := m.field_inner.len

/-- Generated `init_validity` for `Outer`. -/
def MutOuter.init_validity (m : MutOuter) : MutOuter :=
  { m with validity := some (lazyInitValidity m.len) }

/-- Generated `TryPush::try_push` for `Outer`.  The `inner` field has type
`Option<StructA>`, whose `arrow_serialize` (serialize.rs lines 77-101)
forwards `Some` to the child `try_push` and `None` to `push_null`; both are
exactly `MutStructA.try_push i.inner`. -/
def MutOuter.try_push (m : MutOuter) (item : Option Outer) : MutOuter :=
  match item with
  | some i =>
      let m1 : MutOuter :=
        { m with
          field_inner := m.field_inner.try_push i.inner
          field_b := m.field_b.push (some i.b) }
      match m1.validity with
      | some bs => { m1 with validity := some (bs ++ [true]) }
      | none => m1
  | none =>
      let m1 : MutOuter :=
        { m with
          field_inner := m.field_inner.try_push none
          field_b := m.field_b.push_null }
      match m1.validity with
      | some bs => { m1 with validity := some (bs ++ [false]) }
      | none => m1.init_validity

/-- Generated `MutableArray::as_box` for `Outer`. -/
def MutOuter.as_box (m : MutOuter) : Arr :=
  .strukt Outer.dataType [m.field_inner.as_box, m.field_b.as_box_prim] m.validity

/-- Generated `MutableDUArray` (derive_enum.rs `array_decl`, dense mode): one
child builder per variant, the type-ids buffer, and the dense offsets
buffer. -/
structure MutDU : Type where
  vUnit : MutPrim Bool
  vPayload : MutPrim Int
  types : List Int
  offsets : List Int
deriving DecidableEq

/-- Generated `MutableDUArray::new`. -/
def MutDU.new : MutDU := ⟨MutPrim.new, MutPrim.new, [], []⟩

/-- Generated `TryPush::try_push` for the dense union `DU`
(`try_push_match_blocks` and `try_push_none`, derive_enum.rs lines 96-191):
a `Some` append serializes the payload into the matched variant builder
(`true` for the unit variant), pushes the variant index onto `types` and
`variant_builder.len() - 1` onto `offsets`; a `None` append pushes type id 0
and a null onto the first variant builder — and, notably, nothing onto
`offsets`. -/
def MutDU.try_push (m : MutDU) (item : Option DU) : MutDU :=
  match item with
  | some .unit =>
      let v := m.vUnit.push (some true)
      { m with vUnit := v, types := m.types ++ [0], offsets := m.offsets ++ [(v.len : Int) - 1] }
  | some (.payload x) =>
      let v := m.vPayload.push (some x)
      { m with vPayload := v, types := m.types ++ [1], offsets := m.offsets ++ [(v.len : Int) - 1] }
  | none =>
      { m with types := m.types ++ [0], vUnit := m.vUnit.push_null }

/-- Generated `MutableArray::as_box` for `DU`: a `UnionArray` from the sealed
variant arrays, the type-ids buffer and (dense mode) the offsets buffer. -/
def MutDU.as_box (m : MutDU) : Arr :=
  .union DU.dataType m.types [m.vUnit.as_box_boolean, m.vPayload.as_box_prim] (some m.offsets)

/-- Generated `MutableSUArray` (sparse mode: no offsets buffer). -/
structure MutSU : Type where
  vUnit : MutPrim Bool
  vPayload : MutPrim Int
  types : List Int
deriving DecidableEq

/-- Generated `MutableSUArray::new`. -/
def MutSU.new : MutSU := ⟨MutPrim.new, MutPrim.new, []⟩

/-- Generated `TryPush::try_push` for the sparse union `SU`: a `Some` append
serializes the payload into the matched variant builder and pushes a null
onto every other variant builder, then pushes the variant index onto
`types`; a `None` append pushes type id 0 and a null onto every variant
builder. -/
def MutSU.try_push (m : MutSU) (item : Option SU) : MutSU :=
  match item with
  | some .unit =>
      { m with
        vUnit := m.vUnit.push (some true)
        vPayload := m.vPayload.push_null
        types := m.types ++ [0] }
  | some (.payload x) =>
      { m with
        vPayload := m.vPayload.push (some x)
        vUnit := m.vUnit.push_null
        types := m.types ++ [1] }
  | none =>
      { m with
        types := m.types ++ [0]
        vUnit := m.vUnit.push_null
        vPayload := m.vPayload.push_null }

/-- Generated `MutableArray::as_box` for `SU` (no offsets buffer). -/
def MutSU.as_box (m : MutSU) : Arr :=
  .union SU.dataType m.types [m.vUnit.as_box_boolean, m.vPayload.as_box_prim] none

/-! ## Top-level serialization (serialize.rs)

`try_into_arrow` (serialize.rs lines 483-498) runs
`arrow_serialize_to_mutable_array`: start from `new_array()`, call
`arrow_serialize` once per element, then seal with `as_box`/`as_arc`.  Each
entry point below is that pipeline monomorphised at one element type. -/

/-- Model of `try_into_arrow` for `Vec<i64>`. -/
def encodeVecI64 (xs : List Int) : Arr :=
  (xs.foldl (fun m x => m.push (some x)) MutPrim.new).as_box_prim

/-- Model of `try_into_arrow` for `Vec<Option<i64>>`: the `Option` blanket
`arrow_serialize` (serialize.rs lines 77-101) forwards `Some` to the inner
serialize and `None` to `push_null`, which is exactly `MutPrim.push`. -/
def encodeVecOptI64 (xs : List (Option Int)) : Arr :=
  (xs.foldl (fun m x => m.push x) MutPrim.new).as_box_prim

/-- Model of `try_into_arrow` for `Vec<Outer>`. -/
def encodeVecOuter (xs : List Outer) : Arr :=
  (xs.foldl (fun m x => m.try_push (some x)) MutOuter.new).as_box

/-- Model of `try_into_arrow` for `Vec<Option<StructA>>`. -/
def encodeVecOptStructA (xs : List (Option StructA)) : Arr :=
  (xs.foldl (fun m x => m.try_push x) MutStructA.new).as_box

/-- Serialization of one `Vec<Option<String>>` element (serialize.rs lines
256-283): serialize every item into the shared child builder, then
`try_push_valid`. -/
def serializeListOptString (m : MutListUtf8) (v : List (Option String)) : MutListUtf8 :=
  ({ m with values := v.foldl (fun c o => c.push o) m.values } : MutListUtf8).try_push_valid

/-- Model of `try_into_arrow` for `Vec<Vec<Option<String>>>`. -/
def encodeVecListOptString (xs : List (List (Option String))) : Arr :=
  let m := xs.foldl serializeListOptString MutListUtf8.new
  .list (.list (.mk "item" .utf8 true)) m.offsets m.values.as_box_utf8 m.validity

/-- Serialization of one `FixedSizeVec<i64, SIZE>` element (serialize.rs
lines 313-340): push every item into the shared child builder, then
`try_push_valid` — the length check only happens inside `try_push_valid`,
after the items were pushed. -/
def serializeFixedVec (m : MutFixedPrim) (v : List Int) : MutFixedPrim × Except Unit Unit :=
  ({ m with values := v.foldl (fun c x => c.push (some x)) m.values } : MutFixedPrim).try_push_valid

/-- Serialization loop of `arrow_serialize_extend_internal` for
`FixedSizeVec<i64, 3>`: the first failing element aborts the whole
conversion (the `?` operator). -/
def serializeFixedAll : List (List Int) → MutFixedPrim → Except Unit MutFixedPrim
  | [], m => .ok m
  | v :: rest, m =>
      match serializeFixedVec m v with
      | (m2, .ok _) => serializeFixedAll rest m2
      | (_, .error e) => .error e

/-- Model of `try_into_arrow_as_type::<FixedSizeVec<i64, 3>>` for
`Vec<Vec<i64>>`. -/
def encodeFixedSizeVec3 (xs : List (List Int)) : Except Unit Arr :=
  (serializeFixedAll xs (MutFixedPrim.new 3)).map
    (fun m => .fixedList (.fixedSizeList (.mk "item" .int64 false) 3) 3 m.values.as_box_prim m.validity)

/-- Model of `try_into_arrow` for `Vec<DU>`. -/
def encodeVecDU (xs : List DU) : Arr :=
  (xs.foldl (fun m x => m.try_push (some x)) MutDU.new).as_box

/-- Model of `try_into_arrow` for `Vec<SU>`. -/
def encodeVecSU (xs : List SU) : Arr :=
  (xs.foldl (fun m x => m.try_push (some x)) MutSU.new).as_box

/-! ## Generated deserialization (derive_struct.rs, derive_enum.rs) and the
top-level decode entry points (deserialize.rs) -/

/-- Generated iterator state for `StructA` (`iterator_decl`): one child
iterator per field (here the `ZipValidity` items of the i64 child), the
validity iterator and the `has_validity` flag. -/
structure StructAIter : Type where
  field_a : List (Option Int)
  validity_iter : Bitmap
  has_validity : Bool
deriving DecidableEq

/-- Generated `ArrowArray::iter_from_array_ref` for `StructA` (derive_struct.rs
lines 381-403): downcast to `StructArray` (failure panics), build each child
iterator from `values[i]` (indexing and child downcast can panic, modelled by
`none`), and take the validity iterator when a bitmap is present. -/
def StructA.iter_from_array_ref : Arr → Option StructAIter
  | .strukt _ children va =>
      match children[0]? with
      | some (Arr.prim vs cva) => some ⟨zipValidityItems vs cva, va.getD [], va.isSome⟩
      | _ => none
  | _ => none

/-- Generated `Iterator::next` for `StructA` (`iterator_iterator_impl`):
without validity, `return_next` drives the iteration; with validity, a set
bit yields `return_next()` (which applies the per-field
`arrow_deserialize_internal`, an unwrap for an i64 field — a panic on a null
child item), and a cleared bit consumes every child iterator and yields a
null element.  The result is `(outcome, new state)` where the outcome
`ok none` means the iterator is exhausted. -/
def StructAIter.next (st : StructAIter) : DecodeResult (Option (Option StructA)) × StructAIter :=
  if st.has_validity then
    match st.validity_iter with
    | [] => (.ok none, st)
    | b :: bs =>
        let st1 : StructAIter := { st with validity_iter := bs }
        if b then
          match st1.field_a with
          | [] => (.ok (some none), st1)
          | item :: rest =>
              let st2 : StructAIter := { st1 with field_a := rest }
              match item with
              | some v => (.ok (some (some ⟨v⟩)), st2)
              | none => (.panicked, st2)
        else
          (.ok (some none), { st1 with field_a := st1.field_a.tail })
  else
    match st.field_a with
    | [] => (.ok none, st)
    | item :: rest =>
        let st2 : StructAIter := { st with field_a := rest }
        match item with
        | some v => (.ok (some (some ⟨v⟩)), st2)
        | none => (.panicked, st2)

theorem StructAIter.next_dec {st st2 : StructAIter} {item : Option StructA}
    (h : st.next = (.ok (some item), st2)) :
    st2.validity_iter.length + st2.field_a.length <
      st.validity_iter.length + st.field_a.length := by
  obtain ⟨fa, vi, hv⟩ := st
  cases hv
  · cases fa with
    | nil => simp [StructAIter.next] at h
    | cons it rest =>
        cases it with
        | some v =>
            simp [StructAIter.next] at h
            obtain ⟨-, h2⟩ := h
            subst h2
            simp
        | none => simp [StructAIter.next] at h
  · cases vi with
    | nil => simp [StructAIter.next] at h
    | cons b bs =>
        cases b
        · simp [StructAIter.next] at h
          obtain ⟨-, h2⟩ := h
          subst h2
          have : fa.tail.length = fa.length - 1 := List.length_tail fa
          simp
          omega
        · cases fa with
          | nil =>
              simp [StructAIter.next] at h
              obtain ⟨-, h2⟩ := h
              subst h2
              simp
          | cons it rest =>
              cases it with
              | some v =>
                  simp [StructAIter.next] at h
                  obtain ⟨-, h2⟩ := h
                  subst h2
                  simp
                  omega
              | none => simp [StructAIter.next] at h

/-- Collecting the generated `StructA` iterator (what `Iterator::collect`
does at the end of the decode pipeline): repeat `next` until exhaustion,
propagating panics. -/
def StructAIter.collect (st : StructAIter) : DecodeResult (List (Option StructA)) :=
  match h : st.next with
  | (.panicked, _) => .panicked
  | (.err, _) => .err
  | (.ok none, _) => .ok []
  | (.ok (some item), st2) => (st2.collect).map (fun l => item :: l)
termination_by st.validity_iter.length + st.field_a.length
decreasing_by exact StructAIter.next_dec h

/-- Generated iterator state for `Outer`: the child iterator for the
(nullable struct) field `inner`, the items of the i64 field `b`, the
validity iterator and the `has_validity` flag. -/
structure OuterIter : Type where
  field_inner : StructAIter
  field_b : List (Option Int)
  validity_iter : Bitmap
  has_validity : Bool
deriving DecidableEq

/-- Generated `return_next` for `Outer` (`iterator_impl`): step every child
iterator (in field order; a panic inside an earlier child pre-empts the
rest), and when all yield an item, assemble the struct by applying each
field type`s `arrow_deserialize_internal`: the identity for the
`Option<StructA>` field, an unwrap (panic on null) for the i64 field. -/
def OuterIter.return_next (st : OuterIter) : DecodeResult (Option Outer) × OuterIter :=
  match st.field_inner.next with
  | (.panicked, innerSt) => (.panicked, { st with field_inner := innerSt })
  | (.err, innerSt) => (.err, { st with field_inner := innerSt })
  | (.ok innerItem, innerSt) =>
      match st.field_b with
      | [] => (.ok none, { st with field_inner := innerSt })
      | bItem :: rest =>
          match innerItem with
          | none => (.ok none, { st with field_inner := innerSt, field_b := rest })
          | some iv =>
              match bItem with
              | none => (.panicked, { st with field_inner := innerSt, field_b := rest })
              | some bv =>
                  (.ok (some ⟨iv, bv⟩), { st with field_inner := innerSt, field_b := rest })

/-- Generated `consume_next` for `Outer`: advance every child iterator by one
position, discarding the items (a panic inside the struct child still
propagates). -/
def OuterIter.consume_next (st : OuterIter) : DecodeResult Unit × OuterIter :=
  match st.field_inner.next with
  | (.panicked, innerSt) => (.panicked, { st with field_inner := innerSt })
  | (_, innerSt) =>
      (.ok (), { st with field_inner := innerSt, field_b := st.field_b.tail })

/-- Generated `Iterator::next` for `Outer` (`iterator_iterator_impl`). -/
def OuterIter.next (st : OuterIter) : DecodeResult (Option (Option Outer)) × OuterIter :=
  if st.has_validity then
    match st.validity_iter with
    | [] => (.ok none, st)
    | b :: bs =>
        if b then
          match OuterIter.return_next { st with validity_iter := bs } with
          | (.ok r, st2) => (.ok (some r), st2)
          | (.panicked, st2) => (.panicked, st2)
          | (.err, st2) => (.err, st2)
        else
          match OuterIter.consume_next { st with validity_iter := bs } with
          | (.ok _, st2) => (.ok (some none), st2)
          | (.panicked, st2) => (.panicked, st2)
          | (.err, st2) => (.err, st2)
  else
    match st.return_next with
    | (.ok none, st2) => (.ok none, st2)
    | (.ok (some y), st2) => (.ok (some (some y)), st2)
    | (.panicked, st2) => (.panicked, st2)
    | (.err, st2) => (.err, st2)

theorem OuterIter.return_next_frame {st st2 : OuterIter} {r : DecodeResult (Option Outer)}
    (h : st.return_next = (r, st2)) :
    st2.validity_iter = st.validity_iter ∧ st2.has_validity = st.has_validity ∧
      st.field_b.length - 1 ≤ st2.field_b.length ∧ st2.field_b.length ≤ st.field_b.length := by
  unfold OuterIter.return_next at h
  split at h <;>
    [skip; skip; split at h]
  · cases h; simp
  · cases h; simp
  · cases h; simp
  · rename_i innerItem innerSt heq bItem rest hfb
    split at h
    · cases h
      simp [hfb]
    · split at h <;>
        (cases h; simp [hfb])

theorem OuterIter.return_next_some {st st2 : OuterIter} {y : Outer}
    (h : st.return_next = (.ok (some y), st2)) :
    st2.field_b.length < st.field_b.length := by
  unfold OuterIter.return_next at h
  split at h <;>
    [skip; skip; split at h]
  · cases h
  · cases h
  · cases h
  · rename_i innerItem innerSt heq bItem rest hfb
    split at h
    · cases h
    · split at h
      · cases h
      · cases h
        simp [hfb]

theorem OuterIter.consume_next_frame {st st2 : OuterIter} {r : DecodeResult Unit}
    (h : st.consume_next = (r, st2)) :
    st2.validity_iter = st.validity_iter ∧ st2.has_validity = st.has_validity := by
  unfold OuterIter.consume_next at h
  split at h <;> (cases h; simp)

theorem OuterIter.next_dec_outer {st st2 : OuterIter} {item : Option Outer}
    (h : st.next = (.ok (some item), st2)) :
    st2.validity_iter.length + st2.field_b.length <
      st.validity_iter.length + st.field_b.length := by
  unfold OuterIter.next at h
  split at h
  · split at h
    · simp at h
    · rename_i b bs hv
      split at h
      · split at h <;> rename_i hr
        · cases h
          have := OuterIter.return_next_frame hr
          simp_all
          omega
        · cases h
        · cases h
      · split at h <;> rename_i hr
        · cases h
          have h1 := OuterIter.consume_next_frame hr
          have h2 : st2.field_b.length ≤ st.field_b.length := by
            revert hr
            unfold OuterIter.consume_next
            split
            · intro hr
              cases hr
            · intro hr
              cases hr
              simp [List.length_tail]
          simp_all
          omega
        · cases h
        · cases h
  · split at h <;> rename_i hr
    · cases h
    · cases h
      have h1 := OuterIter.return_next_frame hr
      have h2 := OuterIter.return_next_some hr
      have h3 : st2.validity_iter.length = st.validity_iter.length := by rw [h1.1]
      omega
    · cases h
    · cases h

/-- Collecting the generated `Outer` iterator. -/
def OuterIter.collect (st : OuterIter) : DecodeResult (List (Option Outer)) :=
  match h : st.next with
  | (.panicked, _) => .panicked
  | (.err, _) => .err
  | (.ok none, _) => .ok []
  | (.ok (some item), st2) => (st2.collect).map (fun l => item :: l)
termination_by st.validity_iter.length + st.field_b.length
decreasing_by exact OuterIter.next_dec_outer h

/-- Generated `ArrowArray::iter_from_array_ref` for `Outer`: downcast to
`StructArray`, build the `StructA` child iterator from `values[0]` and the
i64 child iterator from `values[1]`. -/
def Outer.iter_from_array_ref : Arr → Option OuterIter
  | .strukt _ children va =>
      match children[0]? with
      | none => none
      | some c0 =>
          match StructA.iter_from_array_ref c0 with
          | none => none
          | some innerIter =>
              match children[1]? with
              | some (Arr.prim vs cva) =>
                  some ⟨innerIter, zipValidityItems vs cva, va.getD [], va.isSome⟩
              | _ => none
  | _ => none

/-- Generated `ArrowArray::iter_from_array_ref` for the dense union `DU`
(derive_enum.rs lines 454-474): downcast to `UnionArray`, build one child
iterator per variant from `fields[i]` — always from the start of each
variant array — and iterate the type-ids buffer.  The dense offsets buffer
is not consulted (deserialization is sequential, see the comment at
derive_enum.rs lines 367-371). -/
def DU.iter_from_array_ref : Arr → Option (List (Option Bool) × List (Option Int) × List Int)
  | .union _ types fields _ =>
      match fields[0]? with
      | some (Arr.boolean vs va) =>
          match fields[1]? with
          | some (Arr.prim ps pva) =>
              some (zipValidityItems vs va, zipValidityItems ps pva, types)
          | _ => none
      | _ => none
  | _ => none

/-- Generated `Iterator::next` for `DU`, fused with `collect`
(`array_iterator_iterator_impl` and `iter_next_match_block`, dense mode):
each step consumes one type id; id 0 advances only the unit-variant iterator
and checks `assert!(v.unwrap())` on the boolean payload (either failure
panics); id 1 advances only the payload-variant iterator and yields
`arrow_deserialize(v).map(Payload)`; an exhausted variant iterator panics
with `Invalid offset`, an unknown id panics with `Invalid type`. -/
def duCollect : List Int → List (Option Bool) → List (Option Int) →
    DecodeResult (List (Option DU))
  | [], _, _ => .ok []
  | t :: ts, ui, pl =>
      if t = 0 then
        match ui with
        | [] => .panicked
        | v :: urest =>
            match v with
            | none => .panicked
            | some b =>
                if b then (duCollect ts urest pl).map (fun l => some .unit :: l)
                else .panicked
      else if t = 1 then
        match pl with
        | [] => .panicked
        | v :: prest => (duCollect ts ui prest).map (fun l => v.map DU.payload :: l)
      else .panicked

/-- Generated `ArrowArray::iter_from_array_ref` for the sparse union `SU`. -/
def SU.iter_from_array_ref : Arr → Option (List (Option Bool) × List (Option Int) × List Int)
  | .union _ types fields _ =>
      match fields[0]? with
      | some (Arr.boolean vs va) =>
          match fields[1]? with
          | some (Arr.prim ps pva) =>
              some (zipValidityItems vs va, zipValidityItems ps pva, types)
          | _ => none
      | _ => none
  | _ => none

/-- Generated `Iterator::next` for `SU`, fused with `collect` (sparse mode):
each step consumes one type id, first advances every non-selected variant
iterator (`consume`), then advances the selected variant iterator and yields
its value exactly as in the dense case. -/
def suCollect : List Int → List (Option Bool) → List (Option Int) →
    DecodeResult (List (Option SU))
  | [], _, _ => .ok []
  | t :: ts, ui, pl =>
      if t = 0 then
        let pl2 := pl.tail
        match ui with
        | [] => .panicked
        | v :: urest =>
            match v with
            | none => .panicked
            | some b =>
                if b then (suCollect ts urest pl2).map (fun l => some .unit :: l)
                else .panicked
      else if t = 1 then
        let ui2 := ui.tail
        match pl with
        | [] => .panicked
        | v :: prest => (suCollect ts ui2 prest).map (fun l => v.map SU.payload :: l)
      else .panicked

/-! ## Top-level deserialization (deserialize.rs)

Each entry point models `try_into_collection` (deserialize.rs lines 417-438):
`arrow_array_deserialize_iterator_as_type` first compares the expected
`ArrowField::data_type()` with the data type embedded in the array and fails
with an `InvalidArgumentError` on mismatch (lines 386-404); only then is the
typed iterator constructed and collected, applying
`arrow_deserialize_internal` per element (an unwrap for non-`Option`
elements, the identity for `Option` elements). -/

/-- Model of `try_into_collection` for `Vec<i64>`. -/
def decodeVecI64 (arr : Arr) : DecodeResult (List Int) :=
  if arr.dataType = DataType.int64 then
    match arr with
    | .prim vs va => collectUnwrap (zipValidityItems vs va)
    | _ => .panicked
  else .err

/-- Model of `try_into_collection` for `Vec<Option<i64>>` (same preflight
check: `Option<i64>` has the data type of `i64`; the per-element conversion
is the identity). -/
def decodeVecOptI64 (arr : Arr) : DecodeResult (List (Option Int)) :=
  if arr.dataType = DataType.int64 then
    match arr with
    | .prim vs va => .ok (zipValidityItems vs va)
    | _ => .panicked
  else .err

/-- Model of `try_into_collection` for `Vec<String>`. -/
def decodeVecString (arr : Arr) : DecodeResult (List String) :=
  if arr.dataType = DataType.utf8 then
    match arr with
    | .utf8 vs va => collectUnwrap (zipValidityItems vs va)
    | _ => .panicked
  else .err

/-- Model of `try_into_collection` for `Vec<Outer>`. -/
def decodeVecOuter (arr : Arr) : DecodeResult (List Outer) :=
  if arr.dataType = Outer.dataType then
    match Outer.iter_from_array_ref arr with
    | none => .panicked
    | some it =>
        match it.collect with
        | .ok items => collectUnwrap items
        | .err => .err
        | .panicked => .panicked
  else .err

/-- Model of `try_into_collection` for `Vec<Option<StructA>>`. -/
def decodeVecOptStructA (arr : Arr) : DecodeResult (List (Option StructA)) :=
  if arr.dataType = StructA.dataType then
    match StructA.iter_from_array_ref arr with
    | none => .panicked
    | some it => it.collect
  else .err

/-- Model of `try_into_collection` for `Vec<DU>`. -/
def decodeVecDU (arr : Arr) : DecodeResult (List DU) :=
  if arr.dataType = DU.dataType then
    match DU.iter_from_array_ref arr with
    | none => .panicked
    | some (ui, pl, types) =>
        match duCollect types ui pl with
        | .ok items => collectUnwrap items
        | .err => .err
        | .panicked => .panicked
  else .err

/-- Model of `try_into_collection` for `Vec<SU>`. -/
def decodeVecSU (arr : Arr) : DecodeResult (List SU) :=
  if arr.dataType = SU.dataType then
    match SU.iter_from_array_ref arr with
    | none => .panicked
    | some (ui, pl, types) =>
        match suCollect types ui pl with
        | .ok items => collectUnwrap items
        | .err => .err
        | .panicked => .panicked
  else .err

/-- Deserialization of one list element for `Vec<Option<String>>`
(`arrow_deserialize_vec_helper`, deserialize.rs lines 266-278): run the
internal iterator over the sub-array; constructing the `Utf8Array` iterator
downcasts (panic on failure), and each element applies the identity
conversion of `Option<String>`. -/
def collectOptStringSub (sub : Arr) : DecodeResult (List (Option String)) :=
  match sub with
  | .utf8 vs va => .ok (zipValidityItems vs va)
  | _ => .panicked

/-- Collect the outer list items for `Vec<Vec<Option<String>>>`: a null list
item hits the non-`Option` element unwrap and panics. -/
def collectSubsOptString : List (Option Arr) → DecodeResult (List (List (Option String)))
  | [] => .ok []
  | none :: _ => .panicked
  | some sub :: rest =>
      match collectOptStringSub sub with
      | .ok l => (collectSubsOptString rest).map (fun ls => l :: ls)
      | .err => .err
      | .panicked => .panicked

/-- Model of `try_into_collection` for `Vec<Vec<Option<String>>>`. -/
def decodeVecListOptString (arr : Arr) : DecodeResult (List (List (Option String))) :=
  if arr.dataType = DataType.list (.mk "item" .utf8 true) then
    match arr with
    | .list _ offsets child va => collectSubsOptString (listItems offsets child va)
    | _ => .panicked
  else .err

/-- Deserialization of one fixed-size-list element for
`FixedSizeVec<i64, 3>`: iterate the sub-array as i64 values (each element is
unwrapped). -/
def collectI64Sub (sub : Arr) : DecodeResult (List Int) :=
  match sub with
  | .prim vs va => collectUnwrap (zipValidityItems vs va)
  | _ => .panicked

/-- Collect the outer items for `Vec<Vec<i64>>` read through
`FixedSizeVec<i64, 3>`. -/
def collectSubsI64 : List (Option Arr) → DecodeResult (List (List Int))
  | [] => .ok []
  | none :: _ => .panicked
  | some sub :: rest =>
      match collectI64Sub sub with
      | .ok l => (collectSubsI64 rest).map (fun ls => l :: ls)
      | .err => .err
      | .panicked => .panicked

/-- Model of `try_into_collection_as_type::<FixedSizeVec<i64, 3>>` for
`Vec<Vec<i64>>`. -/
def decodeFixedSizeVec3 (arr : Arr) : DecodeResult (List (List Int)) :=
  if arr.dataType = DataType.fixedSizeList (.mk "item" .int64 false) 3 then
    match arr with
    | .fixedList _ sz child va => collectSubsI64 (fixedListItems sz child va)
    | _ => .panicked
  else .err

/-! ## Round-trip compositions (encode with `try_into_arrow`, then decode
with `try_into_collection`) -/

/-- Encode then decode for `Vec<i64>`. -/
def roundTripVecI64 (xs : List Int) : DecodeResult (List Int) :=
  decodeVecI64 (encodeVecI64 xs)

/-- Encode then decode for `Vec<Option<i64>>`. -/
def roundTripVecOptI64 (xs : List (Option Int)) : DecodeResult (List (Option Int)) :=
  decodeVecOptI64 (encodeVecOptI64 xs)

/-- Encode then decode for `Vec<Outer>`. -/
def roundTripVecOuter (xs : List Outer) : DecodeResult (List Outer) :=
  decodeVecOuter (encodeVecOuter xs)

/-- Encode then decode for `Vec<Option<StructA>>`. -/
def roundTripVecOptStructA (xs : List (Option StructA)) :
    DecodeResult (List (Option StructA)) :=
  decodeVecOptStructA (encodeVecOptStructA xs)

/-- Encode then decode for `Vec<Vec<Option<String>>>`. -/
def roundTripVecListOptString (xs : List (List (Option String))) :
    DecodeResult (List (List (Option String))) :=
  decodeVecListOptString (encodeVecListOptString xs)

/-- Encode then decode for `Vec<Vec<i64>>` via `FixedSizeVec<i64, 3>`; an
encode error surfaces as `err`. -/
def roundTripFixedSizeVec3 (xs : List (List Int)) : DecodeResult (List (List Int)) :=
  match encodeFixedSizeVec3 xs with
  | .error _ => .err
  | .ok arr => decodeFixedSizeVec3 arr

/-- Encode then decode for `Vec<DU>`. -/
def roundTripVecDU (xs : List DU) : DecodeResult (List DU) :=
  decodeVecDU (encodeVecDU xs)

/-- Encode then decode for `Vec<SU>`. -/
def roundTripVecSU (xs : List SU) : DecodeResult (List SU) :=
  decodeVecSU (encodeVecSU xs)

/-! ## Builder characterization lemmas -/

/-- Closed form of a scalar builder after pushing a sequence of optional
values: the values buffer holds each value (defaulted at nulls) and the
validity bitmap exists exactly when a null was pushed, with bit i set iff
element i was present. -/
def primState [Inhabited α] (p : List (Option α)) : MutPrim α :=
  { values := p.map (fun o => o.getD default)
    validity := if p.all Option.isSome then none else some (p.map Option.isSome) }

theorem lazyInitValidity_eq (n : Nat) :
    lazyInitValidity (n + 1) = List.replicate n true ++ [false] := by
  induction n with
  | zero => rfl
  | succ k ih =>
      have h : lazyInitValidity (k + 2) = true :: lazyInitValidity (k + 1) := by
        simp [lazyInitValidity, List.replicate_succ]
      rw [h, ih, List.replicate_succ]
      simp

theorem map_isSome_of_all {α : Type} {p : List (Option α)} (h : p.all Option.isSome) :
    p.map Option.isSome = List.replicate p.length true := by
  induction p with
  | nil => rfl
  | cons o rest ih =>
      simp only [List.all_cons, Bool.and_eq_true] at h
      simp [h.1, ih h.2, List.replicate_succ]

theorem primState_push [Inhabited α] (p : List (Option α)) (o : Option α) :
    (primState p).push o = primState (p ++ [o]) := by
  cases o with
  | some x =>
      simp only [primState, MutPrim.push, MutPrim.mk.injEq]
      constructor
      · simp
      · by_cases h : p.all Option.isSome <;> simp [h]
  | none =>
      simp only [primState, MutPrim.push]
      by_cases h : p.all Option.isSome
      · simp only [h, if_true, MutPrim.mk.injEq]
        constructor
        · simp
        · rw [List.length_append, List.length_map]
          simp only [List.length_singleton]
          rw [lazyInitValidity_eq p.length, ← map_isSome_of_all h]
          simp [h]
      · simp [h]

theorem primState_foldl [Inhabited α] (p xs : List (Option α)) :
    xs.foldl MutPrim.push (primState p) = primState (p ++ xs) := by
  induction xs generalizing p with
  | nil => simp
  | cons o rest ih =>
      simp only [List.foldl_cons, primState_push]
      rw [ih (p ++ [o])]
      simp

theorem primState_nil [Inhabited α] : primState ([] : List (Option α)) = MutPrim.new := rfl

theorem primState_of_new [Inhabited α] (xs : List (Option α)) :
    xs.foldl MutPrim.push MutPrim.new = primState xs := by
  rw [← primState_nil, primState_foldl]
  simp

/-- Reading back a sealed scalar builder restores the pushed sequence. -/
theorem zipValidity_map_isSome [Inhabited α] (xs : List (Option α)) :
    List.zipWith (fun b v => if b then some v else none) (xs.map Option.isSome)
      (xs.map (fun o => o.getD default)) = xs := by
  induction xs with
  | nil => rfl
  | cons o rest ih => cases o <;> simp [ih]

theorem zipValidity_primState [Inhabited α] (xs : List (Option α)) :
    zipValidityItems (primState xs).values (primState xs).validity = xs := by
  by_cases h : xs.all Option.isSome
  · simp only [primState, h, if_true, zipValidityItems]
    induction xs with
    | nil => rfl
    | cons o rest ih =>
        simp only [List.all_cons, Bool.and_eq_true] at h
        cases o with
        | some x => simp_all
        | none => simp at h
  · simp [primState, h, zipValidityItems, zipValidity_map_isSome]
    have he : ∀ a : Option α, (if a.isSome = true then some (a.getD default) else none) = a := by
      intro a
      cases a <;> simp
    simp [he]

theorem collectUnwrap_map_some (xs : List α) :
    collectUnwrap (xs.map some) = .ok xs := by
  induction xs with
  | nil => rfl
  | cons x rest ih => simp [collectUnwrap, ih, DecodeResult.map]

theorem foldl_push_some (xs : List α) [Inhabited α] (m : MutPrim α) :
    xs.foldl (fun m x => m.push (some x)) m = (xs.map some).foldl MutPrim.push m := by
  rw [List.foldl_map]

theorem rt_vec_i64 (xs : List Int) : roundTripVecI64 xs = .ok xs := by
  have henc : encodeVecI64 xs = .prim xs none := by
    simp only [encodeVecI64, foldl_push_some, primState_of_new, MutPrim.as_box_prim, primState]
    congr 1
    · simp [Function.comp_def]
    · simp
  simp [roundTripVecI64, henc, decodeVecI64, Arr.dataType, zipValidityItems,
    collectUnwrap_map_some]

theorem rt_vec_opt_i64 (xs : List (Option Int)) : roundTripVecOptI64 xs = .ok xs := by
  have henc : xs.foldl (fun m x => m.push x) MutPrim.new = primState xs := by
    rw [show (fun (m : MutPrim Int) x => m.push x) = MutPrim.push from rfl, primState_of_new]
  simp only [roundTripVecOptI64, encodeVecOptI64, henc, MutPrim.as_box_prim, decodeVecOptI64,
    Arr.dataType]
  rw [if_pos trivial]
  exact congrArg DecodeResult.ok (zipValidity_primState xs)

/-- Closed form of the generated `StructA` builder after pushing a sequence
of optional structs: the child builder receives the field values (a null per
null struct) and the validity bitmap follows the same lazy-allocation rule
as a scalar builder. -/
def structAState (p : List (Option StructA)) : MutStructA :=
  { field_a := primState (p.map (fun o => o.map StructA.a))
    validity := if p.all Option.isSome then none else some (p.map Option.isSome) }

theorem structAState_len (p : List (Option StructA)) :
    (structAState p).len = p.length := by
  simp [structAState, MutStructA.len, primState, MutPrim.len]

theorem structAState_push (p : List (Option StructA)) (o : Option StructA) :
    (structAState p).try_push o = structAState (p ++ [o]) := by
  cases o with
  | some i =>
      simp only [MutStructA.try_push, structAState]
      by_cases h : p.all Option.isSome <;>
        simp [h, primState_push, MutStructA.mk.injEq]
  | none =>
      simp only [MutStructA.try_push, structAState]
      by_cases h : p.all Option.isSome
      · simp only [h, if_true, MutStructA.init_validity, MutStructA.len, MutPrim.push_null,
          primState_push, MutStructA.mk.injEq]
        constructor
        · simp
        · simp only [MutPrim.len, primState, List.map_append, List.length_append,
            List.length_map, List.length_singleton]
          rw [lazyInitValidity_eq p.length, ← map_isSome_of_all h]
          simp [h]
      · simp [h, MutPrim.push_null, primState_push]

theorem structAState_of_new (xs : List (Option StructA)) :
    xs.foldl MutStructA.try_push MutStructA.new = structAState xs := by
  have hgen : ∀ (ys : List (Option StructA)) (p : List (Option StructA)),
      ys.foldl MutStructA.try_push (structAState p) = structAState (p ++ ys) := by
    intro ys
    induction ys with
    | nil => simp
    | cons o rest ih =>
        intro p
        simp only [List.foldl_cons, structAState_push]
        rw [ih (p ++ [o])]
        simp
  have h0 : structAState [] = MutStructA.new := rfl
  rw [← h0, hgen]
  simp

/-- The iterator state the generated `iter_from_array_ref` produces for a
sealed `StructA` column whose remaining logical elements are `q`: the child
items are the field values of `q`, and the validity iterator (when the
column has a bitmap, `hv = true`) holds the presence bits of `q`. -/
def structAIterSt (q : List (Option StructA)) (hv : Bool) : StructAIter :=
  ⟨q.map (fun o => o.map StructA.a), if hv then q.map Option.isSome else [], hv⟩

theorem structAIterSt_next_cons (o : Option StructA) (q : List (Option StructA)) (hv : Bool)
    (h : hv = false → o.isSome) :
    StructAIter.next (structAIterSt (o :: q) hv) = (.ok (some o), structAIterSt q hv) := by
  cases hv
  · obtain ⟨i, rfl⟩ := Option.isSome_iff_exists.mp (h rfl)
    simp [structAIterSt, StructAIter.next]
  · cases o with
    | some i => simp [structAIterSt, StructAIter.next]
    | none => simp [structAIterSt, StructAIter.next, List.tail]

theorem structAIterSt_next_nil (hv : Bool) :
    StructAIter.next (structAIterSt [] hv) = (.ok none, structAIterSt [] hv) := by
  cases hv <;> simp [structAIterSt, StructAIter.next]

theorem structACollect_st (q : List (Option StructA)) (hv : Bool)
    (h : hv = false → q.all Option.isSome) :
    StructAIter.collect (structAIterSt q hv) = .ok q := by
  induction q with
  | nil =>
      rw [StructAIter.collect]
      split <;> rename_i heq <;> rw [structAIterSt_next_nil] at heq <;> cases heq
  | cons o rest ih =>
      have hcons : hv = false → o.isSome ∧ rest.all Option.isSome := by
        intro hf
        have := h hf
        simp only [List.all_cons, Bool.and_eq_true] at this
        exact this
      have hstep := structAIterSt_next_cons o rest hv (fun hf => (hcons hf).1)
      rw [StructAIter.collect]
      split <;> rename_i heq <;> rw [hstep] at heq <;> cases heq
      rw [ih (fun hf => (hcons hf).2)]
      rfl

theorem map_map_isSome (f : α → β) (p : List (Option α)) :
    (p.map (fun o => o.map f)).map Option.isSome = p.map Option.isSome := by
  induction p with
  | nil => rfl
  | cons o rest ih => cases o <;> simp_all

theorem map_map_all_isSome (f : α → β) (p : List (Option α)) :
    (p.map (fun o => o.map f)).all Option.isSome = p.all Option.isSome := by
  induction p with
  | nil => rfl
  | cons o rest ih => cases o <;> simp_all

theorem iter_structAState (p : List (Option StructA)) :
    StructA.iter_from_array_ref (structAState p).as_box =
      some (structAIterSt p (!p.all Option.isSome)) := by
  have hz := zipValidity_primState (p.map (fun o => o.map StructA.a))
  have h1 : StructA.iter_from_array_ref (structAState p).as_box =
      some ⟨zipValidityItems (primState (p.map (fun o => o.map StructA.a))).values
              (primState (p.map (fun o => o.map StructA.a))).validity,
            ((structAState p).validity).getD [], ((structAState p).validity).isSome⟩ := rfl
  rw [h1, hz]
  by_cases h : p.all Option.isSome <;> simp [structAState, structAIterSt, h]

theorem rt_vec_opt_structA (xs : List (Option StructA)) :
    roundTripVecOptStructA xs = .ok xs := by
  have henc : encodeVecOptStructA xs = (structAState xs).as_box := by
    simp only [encodeVecOptStructA]
    rw [show (fun (m : MutStructA) x => m.try_push x) = MutStructA.try_push from rfl,
      structAState_of_new]
  rw [roundTripVecOptStructA, henc, decodeVecOptStructA,
    if_pos (by simp [MutStructA.as_box, Arr.dataType]), iter_structAState]
  exact structACollect_st xs _ (by
    intro hf
    simpa using hf)

/-- Closed form of the generated `Outer` builder after pushing a sequence of
optional values: the struct child receives the (optional) inner structs, the
i64 child receives the (optional) field values, and the validity follows the
lazy rule. -/
def outerState (p : List (Option Outer)) : MutOuter :=
  { field_inner := structAState (p.map (fun o => o.bind Outer.inner))
    field_b := primState (p.map (fun o => o.map Outer.b))
    validity := if p.all Option.isSome then none else some (p.map Option.isSome) }

theorem outerState_push (p : List (Option Outer)) (o : Option Outer) :
    (outerState p).try_push o = outerState (p ++ [o]) := by
  cases o with
  | some i =>
      simp only [MutOuter.try_push, outerState]
      by_cases h : p.all Option.isSome <;>
        simp [h, primState_push, structAState_push, MutOuter.mk.injEq]
  | none =>
      simp only [MutOuter.try_push, outerState]
      by_cases h : p.all Option.isSome
      · simp only [h, if_true, MutOuter.init_validity, MutOuter.len, MutPrim.push_null,
          primState_push, structAState_push, MutOuter.mk.injEq]
        refine ⟨by simp, by simp, ?_⟩
        rw [structAState_len]
        simp only [List.map_append, List.length_append, List.length_map,
          List.length_singleton]
        rw [lazyInitValidity_eq p.length, ← map_isSome_of_all h]
        simp [h]
      · simp [h, MutPrim.push_null, primState_push, structAState_push]

theorem outerState_of_new (xs : List (Option Outer)) :
    xs.foldl MutOuter.try_push MutOuter.new = outerState xs := by
  have hgen : ∀ (ys p : List (Option Outer)),
      ys.foldl MutOuter.try_push (outerState p) = outerState (p ++ ys) := by
    intro ys
    induction ys with
    | nil => simp
    | cons o rest ih =>
        intro p
        simp only [List.foldl_cons, outerState_push]
        rw [ih (p ++ [o])]
        simp
  have h0 : outerState [] = MutOuter.new := rfl
  rw [← h0, hgen]
  simp

/-- The iterator state produced for a sealed `Outer` column whose remaining
logical elements are `p`; `hvO` and `hvI` record whether the struct column
and its nested struct child column carry validity bitmaps. -/
def outerIterSt (p : List (Option Outer)) (hvO hvI : Bool) : OuterIter :=
  ⟨structAIterSt (p.map (fun o => o.bind Outer.inner)) hvI,
   p.map (fun o => o.map Outer.b),
   if hvO then p.map Option.isSome else [], hvO⟩

theorem outerIterSt_next_cons (o : Option Outer) (rest : List (Option Outer)) (hvO hvI : Bool)
    (hOo : hvO = false → o.isSome)
    (hIo : hvI = false → (o.bind Outer.inner).isSome) :
    OuterIter.next (outerIterSt (o :: rest) hvO hvI) =
      (.ok (some o), outerIterSt rest hvO hvI) := by
  cases hvO
  · obtain ⟨i, rfl⟩ := Option.isSome_iff_exists.mp (hOo rfl)
    have hstep := structAIterSt_next_cons i.inner
      (rest.map (fun o => o.bind Outer.inner)) hvI hIo
    simp only [outerIterSt, OuterIter.next, OuterIter.return_next, List.map_cons,
      Option.some_bind, Option.map_some]
    rw [hstep]
    simp [outerIterSt]
  · cases o with
    | some i =>
        have hstep := structAIterSt_next_cons i.inner
          (rest.map (fun o => o.bind Outer.inner)) hvI hIo
        simp only [outerIterSt, OuterIter.next, OuterIter.return_next, List.map_cons,
          Option.some_bind, Option.map_some, Option.isSome_some, if_true]
        rw [hstep]
        simp [outerIterSt]
    | none =>
        have hstep := structAIterSt_next_cons none
          (rest.map (fun o => o.bind Outer.inner)) hvI hIo
        simp only [outerIterSt, OuterIter.next, OuterIter.consume_next, List.map_cons,
          Option.none_bind, Option.map_none, Option.isSome_none, Bool.false_eq_true, if_false]
        rw [hstep]
        simp [outerIterSt, List.tail]

theorem outerIterSt_next_nil (hvO hvI : Bool) :
    OuterIter.next (outerIterSt [] hvO hvI) = (.ok none, outerIterSt [] hvO hvI) := by
  have hstep := structAIterSt_next_nil hvI
  cases hvO <;>
    · simp only [outerIterSt, OuterIter.next, OuterIter.return_next, List.map_nil]
      rw [hstep]
      simp [outerIterSt]

theorem outerCollect_st (p : List (Option Outer)) (hvO hvI : Bool)
    (hO : hvO = false → p.all Option.isSome)
    (hI : hvI = false → (p.map (fun o => o.bind Outer.inner)).all Option.isSome) :
    OuterIter.collect (outerIterSt p hvO hvI) = .ok p := by
  induction p with
  | nil =>
      rw [OuterIter.collect]
      split <;> rename_i heq <;> rw [outerIterSt_next_nil] at heq <;> cases heq
  | cons o rest ih =>
      have hOcons : hvO = false → o.isSome ∧ rest.all Option.isSome := by
        intro hf
        have := hO hf
        simp only [List.all_cons, Bool.and_eq_true] at this
        exact this
      have hIcons : hvI = false →
          (o.bind Outer.inner).isSome ∧
            (rest.map (fun o => o.bind Outer.inner)).all Option.isSome := by
        intro hf
        have := hI hf
        simp only [List.map_cons, List.all_cons, Bool.and_eq_true] at this
        exact this
      have hstep := outerIterSt_next_cons o rest hvO hvI
        (fun hf => (hOcons hf).1) (fun hf => (hIcons hf).1)
      rw [OuterIter.collect]
      split <;> rename_i heq <;> rw [hstep] at heq <;> cases heq
      rw [ih (fun hf => (hOcons hf).2) (fun hf => (hIcons hf).2)]
      rfl

theorem iter_outerState (p : List (Option Outer)) :
    Outer.iter_from_array_ref (outerState p).as_box =
      some (outerIterSt p (!p.all Option.isSome)
        (!(p.map (fun o => o.bind Outer.inner)).all Option.isSome)) := by
  have h1 : Outer.iter_from_array_ref (outerState p).as_box =
      match StructA.iter_from_array_ref
          (structAState (p.map (fun o => o.bind Outer.inner))).as_box with
      | none => none
      | some ii =>
          some ⟨ii,
            zipValidityItems (primState (p.map (fun o => o.map Outer.b))).values
              (primState (p.map (fun o => o.map Outer.b))).validity,
            ((outerState p).validity).getD [], ((outerState p).validity).isSome⟩ := rfl
  rw [h1, iter_structAState, zipValidity_primState]
  by_cases h : p.all Option.isSome <;> simp [outerState, outerIterSt, h]

theorem decodeVecOuter_of_iter {arr : Arr} {it : OuterIter}
    (hdt : arr.dataType = Outer.dataType)
    (hit : Outer.iter_from_array_ref arr = some it) :
    decodeVecOuter arr =
      (match it.collect with
        | .ok items => collectUnwrap items
        | .err => .err
        | .panicked => .panicked) := by
  rw [decodeVecOuter, if_pos hdt, hit]

theorem rt_vec_outer (xs : List Outer) : roundTripVecOuter xs = .ok xs := by
  have hall : (xs.map some).all Option.isSome = true := by
    simp [List.all_map, Function.comp_def]
  have henc : encodeVecOuter xs = (outerState (xs.map some)).as_box := by
    simp only [encodeVecOuter]
    rw [← outerState_of_new, List.foldl_map]
  rw [roundTripVecOuter, henc,
    decodeVecOuter_of_iter (by simp [MutOuter.as_box, Arr.dataType]) (iter_outerState _)]
  rw [outerCollect_st (xs.map some) _ _ (fun _ => hall)
    (fun hf => by simpa using hf)]
  exact collectUnwrap_map_some xs

theorem sliceList_zero_full (xs : List α) : sliceList xs 0 xs.length = xs := by
  simp [sliceList]

theorem sliceList_zero_of_le (xs : List α) (n : Nat) (h : xs.length ≤ n) :
    sliceList xs 0 n = xs := by
  simp [sliceList, List.take_of_length_le h]

theorem primState_values_length [Inhabited α] (v : List (Option α)) :
    (primState v).values.length = v.length := by
  simp [primState]

theorem sliced_utf8_primState (v : List (Option String)) :
    (Arr.utf8 (primState v).values (primState v).validity).sliced 0 v.length =
      .utf8 (primState v).values (primState v).validity := by
  rw [Arr.sliced]
  congr 1
  · rw [← primState_values_length v, sliceList_zero_full]
  · by_cases h : v.all Option.isSome
    · simp [primState, h, sliceValidity]
    · simp only [primState, h, sliceValidity, Bool.false_eq_true, if_false, Option.map_some',
        Option.some.injEq]
      exact sliceList_zero_of_le _ _ (by simp)

theorem rt_vec_list_opt_string (v : List (Option String)) :
    roundTripVecListOptString [v] = .ok [v] := by
  have hfold : v.foldl (fun (c : MutPrim String) o => c.push o) MutPrim.new = primState v := by
    rw [show (fun (c : MutPrim String) o => c.push o) = MutPrim.push from rfl, primState_of_new]
  have henc : encodeVecListOptString [v] =
      .list (.list (.mk "item" .utf8 true)) [0, v.length]
        (.utf8 (primState v).values (primState v).validity) none := by
    simp only [encodeVecListOptString, List.foldl_cons, List.foldl_nil, serializeListOptString,
      MutListUtf8.new, MutListUtf8.try_push_valid, hfold, MutPrim.as_box_utf8]
    simp [MutPrim.len, primState_values_length]
  rw [roundTripVecListOptString, henc, decodeVecListOptString,
    if_pos (by simp [Arr.dataType])]
  have hitems : listItems [0, v.length]
      (.utf8 (primState v).values (primState v).validity) none =
      [some ((Arr.utf8 (primState v).values (primState v).validity).sliced 0 v.length)] := by
    simp [listItems, listValues, zipValidityItems, List.range_succ]
  rw [hitems, sliced_utf8_primState]
  simp [collectSubsOptString, collectOptStringSub, zipValidity_primState, DecodeResult.map]

theorem sliced_prim_full (vs : List Int) :
    (Arr.prim vs none).sliced 0 vs.length = .prim vs none := by
  rw [Arr.sliced]
  simp [sliceList_zero_full, sliceValidity]

theorem rt_fixed_size_vec3 (v : List Int) (h : v.length = 3) :
    roundTripFixedSizeVec3 [v] = .ok [v] := by
  have hfold : v.foldl (fun (c : MutPrim Int) x => c.push (some x)) MutPrim.new =
      primState (v.map some) := by
    rw [foldl_push_some, primState_of_new]
  have hvals : (primState (v.map some)).values = v := by
    simp [primState, Function.comp_def]
  have hvalidity : (primState (v.map some)).validity = none := by
    simp [primState, List.all_map, Function.comp_def]
  have henc : encodeFixedSizeVec3 [v] =
      .ok (.fixedList (.fixedSizeList (.mk "item" .int64 false) 3) 3 (.prim v none) none) := by
    simp only [encodeFixedSizeVec3, serializeFixedAll, serializeFixedVec, MutFixedPrim.new,
      hfold, MutFixedPrim.try_push_valid, MutPrim.len, hvals, hvalidity]
    simp only [h, MutPrim.as_box_prim]
    simp [Except.map]
    exact ⟨hvals, hvalidity⟩
  rw [roundTripFixedSizeVec3, henc]
  show decodeFixedSizeVec3
      (.fixedList (.fixedSizeList (.mk "item" .int64 false) 3) 3 (.prim v none) none) =
    .ok [v]
  rw [decodeFixedSizeVec3.eq_def, if_pos (by simp [Arr.dataType])]
  have hitems : fixedListItems 3 (.prim v none) none =
      [some ((Arr.prim v none).sliced 0 3)] := by
    simp [fixedListItems, fixedListValues, zipValidityItems, Arr.len, h, List.range_succ]
  show collectSubsI64 (fixedListItems 3 (Arr.prim v none) none) = .ok [v]
  rw [hitems, show (3 : Nat) = v.length from h.symm, sliced_prim_full]
  simp [collectSubsI64, collectI64Sub, collectUnwrap_map_some, zipValidityItems,
    DecodeResult.map]

theorem rt_vec_du_unit : roundTripVecDU [DU.unit] = .ok [DU.unit] := by
  simp [roundTripVecDU, encodeVecDU, MutDU.try_push, MutDU.new, MutPrim.push, MutPrim.new,
    MutPrim.len, MutDU.as_box, MutPrim.as_box_boolean, MutPrim.as_box_prim, decodeVecDU,
    DU.iter_from_array_ref, zipValidityItems, duCollect, collectUnwrap, DecodeResult.map,
    DU.dataType, Arr.dataType]

theorem rt_vec_du_payload (x : Int) :
    roundTripVecDU [DU.payload x] = .ok [DU.payload x] := by
  simp [roundTripVecDU, encodeVecDU, MutDU.try_push, MutDU.new, MutPrim.push, MutPrim.new,
    MutPrim.len, MutDU.as_box, MutPrim.as_box_boolean, MutPrim.as_box_prim, decodeVecDU,
    DU.iter_from_array_ref, zipValidityItems, duCollect, collectUnwrap, DecodeResult.map,
    DU.dataType, Arr.dataType]

theorem rt_vec_du_both (x : Int) :
    roundTripVecDU [DU.unit, DU.payload x] = .ok [DU.unit, DU.payload x] := by
  simp [roundTripVecDU, encodeVecDU, MutDU.try_push, MutDU.new, MutPrim.push, MutPrim.new,
    MutPrim.len, MutDU.as_box, MutPrim.as_box_boolean, MutPrim.as_box_prim, decodeVecDU,
    DU.iter_from_array_ref, zipValidityItems, duCollect, collectUnwrap, DecodeResult.map,
    DU.dataType, Arr.dataType]

theorem rt_vec_su_unit : roundTripVecSU [SU.unit] = .ok [SU.unit] := by
  simp [roundTripVecSU, encodeVecSU, MutSU.try_push, MutSU.new, MutPrim.push, MutPrim.new,
    MutPrim.push_null, MutPrim.len, MutSU.as_box, MutPrim.as_box_boolean, MutPrim.as_box_prim,
    decodeVecSU, SU.iter_from_array_ref, zipValidityItems, suCollect, collectUnwrap,
    DecodeResult.map, SU.dataType, lazyInitValidity, Arr.dataType]

theorem rt_vec_su_payload (x : Int) :
    roundTripVecSU [SU.payload x] = .ok [SU.payload x] := by
  simp [roundTripVecSU, encodeVecSU, MutSU.try_push, MutSU.new, MutPrim.push, MutPrim.new,
    MutPrim.push_null, MutPrim.len, MutSU.as_box, MutPrim.as_box_boolean, MutPrim.as_box_prim,
    decodeVecSU, SU.iter_from_array_ref, zipValidityItems, suCollect, collectUnwrap,
    DecodeResult.map, SU.dataType, lazyInitValidity, Arr.dataType]

theorem rt_vec_su_both (x : Int) :
    roundTripVecSU [SU.unit, SU.payload x] = .ok [SU.unit, SU.payload x] := by
  simp [roundTripVecSU, encodeVecSU, MutSU.try_push, MutSU.new, MutPrim.push, MutPrim.new,
    MutPrim.push_null, MutPrim.len, MutSU.as_box, MutPrim.as_box_boolean, MutPrim.as_box_prim,
    decodeVecSU, SU.iter_from_array_ref, zipValidityItems, suCollect, collectUnwrap,
    DecodeResult.map, SU.dataType, lazyInitValidity, Arr.dataType]

/-! ## Schema derivation over the shape grammar (field.rs) -/

/-- Shape grammar of native types, as far as the claims need it: scalars,
`Option<T>` and `Vec<T>`. -/
inductive RustTy : Type where
  | int64 : RustTy
  | boolean : RustTy
  | utf8 : RustTy
  | option : RustTy → RustTy
  | vec : RustTy → RustTy
deriving DecidableEq

/-- Model of `ArrowField::is_nullable` (field.rs lines 38-45 and 96-99):
false by default, true exactly for the `Option` blanket implementation. -/
def RustTy.is_nullable : RustTy → Bool
  | .option _ => true
  | _ => false

/-- Model of `ArrowField::data_type` (field.rs): `Option<T>` forwards to the
data type of `T` (lines 84-100); `Vec<T>` produces a `List` of the child
field named `item` (lines 254-265).  The function is total: field.rs has no
error path for any shape, nested options included. -/
def RustTy.data_type : RustTy → DataType
  | .int64 => .int64
  | .boolean => .boolean
  | .utf8 => .utf8
  | .option t => t.data_type
  | .vec t => .list (.mk "item" t.data_type t.is_nullable)

theorem collectUnwrap_panics {l : List (Option α)} (h : none ∈ l) :
    collectUnwrap l = .panicked := by
  induction l with
  | nil => cases h
  | cons a rest ih =>
      cases a with
      | none => rfl
      | some x =>
          simp only [List.mem_cons] at h
          rcases h with h | h
          · cases h
          · simp [collectUnwrap, ih h, DecodeResult.map]

/-- C1: for every supported native value v (plain scalar, nullable scalar
with both Some and None, nested struct with a null child — `Outer` has a
nullable struct field, so the quantifier covers `inner = none` —, list of
optional strings, fixed-size list with exact-length input, dense union with
a unit variant and a payload variant, sparse union likewise), serializing
the one-element sequence [v] with `try_into_arrow` and then deserializing
with `try_into_collection` yields exactly [v]; for the unions the sequence
containing both variants also round-trips. -/
theorem claim_C1_round_trip :
    (∀ x : Int, roundTripVecI64 [x] = .ok [x]) ∧
    (∀ x : Int, roundTripVecOptI64 [some x] = .ok [some x]) ∧
    (roundTripVecOptI64 [none] = .ok [none]) ∧
    (∀ v : Outer, roundTripVecOuter [v] = .ok [v]) ∧
    (∀ v : List (Option String), roundTripVecListOptString [v] = .ok [v]) ∧
    (∀ v : List Int, v.length = 3 → roundTripFixedSizeVec3 [v] = .ok [v]) ∧
    (∀ v : DU, roundTripVecDU [v] = .ok [v]) ∧
    (∀ x : Int, roundTripVecDU [DU.unit, DU.payload x] = .ok [DU.unit, DU.payload x]) ∧
    (∀ v : SU, roundTripVecSU [v] = .ok [v]) ∧
    (∀ x : Int, roundTripVecSU [SU.unit, SU.payload x] = .ok [SU.unit, SU.payload x]) := by
  refine ⟨fun x => rt_vec_i64 [x], fun x => rt_vec_opt_i64 [some x], rt_vec_opt_i64 [none],
    fun v => rt_vec_outer [v], rt_vec_list_opt_string, rt_fixed_size_vec3, ?_,
    rt_vec_du_both, ?_, rt_vec_su_both⟩
  · intro v
    cases v with
    | unit => exact rt_vec_du_unit
    | payload x => exact rt_vec_du_payload x
  · intro v
    cases v with
    | unit => exact rt_vec_su_unit
    | payload x => exact rt_vec_su_payload x

/-- Witness for C1 at concrete inputs (the spec examples: the scalar 7,
a None, a struct with a null child, the list [Some "a", None], the
exact-length fixed-size list [1,2,3], and union sequences with both a unit
and a payload variant). -/
theorem claim_C1_round_trip_witness :
    roundTripVecI64 [7] = .ok [7] ∧
    roundTripVecOptI64 [none] = .ok [none] ∧
    roundTripVecOuter [⟨none, 2⟩] = .ok [⟨none, 2⟩] ∧
    roundTripVecListOptString [[some "a", none]] = .ok [[some "a", none]] ∧
    roundTripFixedSizeVec3 [[1, 2, 3]] = .ok [[1, 2, 3]] ∧
    roundTripVecDU [DU.unit, DU.payload 5] = .ok [DU.unit, DU.payload 5] ∧
    roundTripVecSU [SU.unit, SU.payload 5] = .ok [SU.unit, SU.payload 5] :=
  ⟨claim_C1_round_trip.1 7,
   claim_C1_round_trip.2.2.1,
   claim_C1_round_trip.2.2.2.1 ⟨none, 2⟩,
   claim_C1_round_trip.2.2.2.2.1 [some "a", none],
   claim_C1_round_trip.2.2.2.2.2.1 [1, 2, 3] rfl,
   claim_C1_round_trip.2.2.2.2.2.2.2.1 5,
   claim_C1_round_trip.2.2.2.2.2.2.2.2.2 5⟩

/-- C2: decoding an array whose embedded data type differs structurally from
the expected data type fails immediately with the schema-mismatch error
(`InvalidArgumentError`), for every embedded target type; no element is
accessed and nothing panics — the result is the `err` outcome, produced
before the iterator is even constructed. -/
theorem claim_C2_schema_mismatch :
    (∀ arr : Arr, arr.dataType ≠ DataType.int64 → decodeVecI64 arr = .err) ∧
    (∀ arr : Arr, arr.dataType ≠ DataType.utf8 → decodeVecString arr = .err) ∧
    (∀ arr : Arr, arr.dataType ≠ Outer.dataType → decodeVecOuter arr = .err) ∧
    (∀ arr : Arr, arr.dataType ≠ StructA.dataType → decodeVecOptStructA arr = .err) ∧
    (∀ arr : Arr, arr.dataType ≠ DU.dataType → decodeVecDU arr = .err) ∧
    (∀ arr : Arr, arr.dataType ≠ SU.dataType → decodeVecSU arr = .err) ∧
    (∀ arr : Arr, arr.dataType ≠ DataType.list (.mk "item" .utf8 true) →
      decodeVecListOptString arr = .err) ∧
    (∀ arr : Arr, arr.dataType ≠ DataType.fixedSizeList (.mk "item" .int64 false) 3 →
      decodeFixedSizeVec3 arr = .err) := by
  refine ⟨?_, ?_, ?_, ?_, ?_, ?_, ?_, ?_⟩ <;>
    · intro arr h
      first
        | rw [decodeVecI64.eq_def, if_neg h]
        | rw [decodeVecString.eq_def, if_neg h]
        | rw [decodeVecOuter.eq_def, if_neg h]
        | rw [decodeVecOptStructA.eq_def, if_neg h]
        | rw [decodeVecDU.eq_def, if_neg h]
        | rw [decodeVecSU.eq_def, if_neg h]
        | rw [decodeVecListOptString.eq_def, if_neg h]
        | rw [decodeFixedSizeVec3.eq_def, if_neg h]

/-- Witness for C2 at the spec example: an i64 column decoded as `String`
fails with the schema-mismatch error. -/
theorem claim_C2_schema_mismatch_witness :
    (encodeVecI64 [1]).dataType ≠ DataType.utf8 ∧
    decodeVecString (encodeVecI64 [1]) = .err :=
  ⟨by decide, claim_C2_schema_mismatch.2.1 (encodeVecI64 [1]) (by decide)⟩

/-- C6 counterexample: a doubly-nested `Option` is not rejected — schema
derivation is a total function (the `Option` blanket implementation of
`ArrowField` in field.rs has no error path), so `Option<Option<i64>>` is
assigned a descriptor: the data type of `i64` with `nullable = true`,
indistinguishable from `Option<i64>`. -/
theorem claim_C6_counterexample :
    (RustTy.option (RustTy.option RustTy.int64)).data_type = DataType.int64 ∧
    (RustTy.option (RustTy.option RustTy.int64)).is_nullable = true :=
  ⟨rfl, rfl⟩

/-- C6 amended: schema derivation for `Option<T>` produces the descriptor of
`T` with `nullable` forced to `true`; a doubly-nested `Option` is accepted
as well (not rejected), collapsing to the same descriptor as a single
`Option` — the columnar model keeps one validity bit per position. -/
theorem claim_C6_option_nullable (t : RustTy) :
    (RustTy.option t).data_type = t.data_type ∧
    (RustTy.option t).is_nullable = true ∧
    (RustTy.option (RustTy.option t)).data_type = t.data_type ∧
    (RustTy.option (RustTy.option t)).is_nullable = true :=
  ⟨rfl, rfl, rfl, rfl⟩

/-- Witness for C6 (amended) at `T = i64`. -/
theorem claim_C6_option_nullable_witness :
    (RustTy.option RustTy.int64).data_type = DataType.int64 ∧
    (RustTy.option RustTy.int64).is_nullable = true ∧
    (RustTy.option (RustTy.option RustTy.int64)).data_type = DataType.int64 ∧
    (RustTy.option (RustTy.option RustTy.int64)).is_nullable = true :=
  claim_C6_option_nullable RustTy.int64

/-- C7: for the generated struct builder, appends of present values while no
null has been appended keep `validity = none` (no bitmap allocated); the
first `None` after an all-present prefix allocates a bitmap that is all-true
for the prior positions and false for the new one; in general the bitmap
after any append sequence is `none` when no null was pushed and otherwise
has bit i set iff element i was non-null; and in the sealed column the bit
read at position i (present-by-default when no bitmap exists) equals the
presence of element i. -/
theorem claim_C7_lazy_validity :
    (∀ xs : List (Option StructA), xs.all Option.isSome →
      (xs.foldl MutStructA.try_push MutStructA.new).validity = none) ∧
    (∀ p : List (Option StructA), p.all Option.isSome →
      ((p ++ [none]).foldl MutStructA.try_push MutStructA.new).validity =
        some (List.replicate p.length true ++ [false])) ∧
    (∀ xs : List (Option StructA),
      (xs.foldl MutStructA.try_push MutStructA.new).validity =
        (if xs.all Option.isSome then none else some (xs.map Option.isSome))) ∧
    (∀ (xs : List (Option StructA)) (i : Nat), i < xs.length →
      (((xs.foldl MutStructA.try_push MutStructA.new).validity).getD []).getD i true =
        (xs.getD i none).isSome) := by
  have hmain : ∀ xs : List (Option StructA),
      (xs.foldl MutStructA.try_push MutStructA.new).validity =
        (if xs.all Option.isSome then none else some (xs.map Option.isSome)) := by
    intro xs
    rw [structAState_of_new]
    rfl
  refine ⟨fun xs h => by rw [hmain, if_pos h], ?_, hmain, ?_⟩
  · intro p h
    rw [hmain]
    have hnall : ¬ (p ++ [none]).all Option.isSome = true := by simp
    rw [if_neg hnall, List.map_append, map_isSome_of_all h]
    rfl
  · intro xs i hi
    rw [hmain]
    have hget : xs.getD i none = xs.get ⟨i, hi⟩ := by
      rw [List.getD_eq_getElem?_getD, List.getElem?_eq_getElem hi]
      rfl
    by_cases h : xs.all Option.isSome
    · simp only [h, if_true, Option.getD_none]
      have hsome : (xs.get ⟨i, hi⟩).isSome = true :=
        (List.all_eq_true.mp h) _ (by exact List.getElem_mem hi)
      have hget2 : xs[i]? = some (xs.get ⟨i, hi⟩) := by
        rw [List.getElem?_eq_getElem hi]
        rfl
      have hl : List.getD ([] : Bitmap) i true = true := by simp [List.getD]
      rw [hl, hget, hsome]
    · simp only [h, Bool.false_eq_true, if_false, Option.getD_some]
      rw [List.getD_eq_getElem?_getD, List.getElem?_map, List.getD_eq_getElem?_getD,
        List.getElem?_eq_getElem hi]
      rfl

/-- Witness for C7: the sequence [Some, Some] keeps no bitmap, the sequence
[Some, None] allocates [true, false], and the bit-query clauses hold at the
first position of [Some (mk 1), None]. -/
theorem claim_C7_lazy_validity_witness :
    ([some (StructA.mk 1), some (StructA.mk 2)].foldl
        MutStructA.try_push MutStructA.new).validity = none ∧
    (([some (StructA.mk 1)] ++ [none]).foldl
        MutStructA.try_push MutStructA.new).validity =
      some (List.replicate 1 true ++ [false]) ∧
    ((([some (StructA.mk 1), none].foldl
        MutStructA.try_push MutStructA.new).validity).getD []).getD 0 true =
      (([some (StructA.mk 1), none] : List (Option StructA)).getD 0 none).isSome :=
  ⟨claim_C7_lazy_validity.1 _ (by decide),
   claim_C7_lazy_validity.2.1 [some (StructA.mk 1)] (by decide),
   claim_C7_lazy_validity.2.2.2 [some (StructA.mk 1), none] 0 (by decide)⟩

theorem foldl_push_some_values [Inhabited α] (v : List α) (c : MutPrim α) :
    (v.foldl (fun c x => c.push (some x)) c).values = c.values ++ v := by
  induction v generalizing c with
  | nil => rw [List.foldl_nil, List.append_nil]
  | cons x rest ih =>
      rw [List.foldl_cons, ih]
      simp [MutPrim.push]

theorem foldl_push_some_validity [Inhabited α] (v : List α) (c : MutPrim α) :
    (v.foldl (fun c x => c.push (some x)) c).validity =
      c.validity.map (fun bs => bs ++ List.replicate v.length true) := by
  induction v generalizing c with
  | nil => cases hv : c.validity <;> simp [hv]
  | cons x rest ih =>
      rw [List.foldl_cons, ih]
      cases hv : c.validity <;> simp [MutPrim.push, hv, List.replicate_succ]

/-- C8 counterexample: appending a 4-element vector to a `FixedSizeVec<_, 3>`
builder does fail, but the failed append has already pushed all four items
into the child values buffer — partial mutation is committed, contradicting
the claim. -/
theorem claim_C8_counterexample :
    (serializeFixedVec (MutFixedPrim.new 3) [1, 2, 3, 4]).2 = .error () ∧
    (serializeFixedVec (MutFixedPrim.new 3) [1, 2, 3, 4]).1.values.values = [1, 2, 3, 4] :=
  ⟨rfl, rfl⟩

/-- C8 amended: the fixed-size append never checks the appended collection's
own length against the declared size — `try_push_valid` only checks whether
the child buffer length is a multiple of the declared size, and it does so
after the caller has already pushed every item.  Consequently, for every
builder state and appended collection: (1) when the resulting child length is
not a multiple of the size, the append fails with an error
(`Error::Overflow`), but the items are already committed to the child values
buffer and the validity bitmap is untouched; (2) when the resulting child
length IS a multiple of the size — including wrong-length collections such
as 6 items into a size-3 slot — the append succeeds silently with no error,
all items committed, and exactly one validity bit pushed regardless of how
many logical elements' worth of values were added.  Previously-sealed
columns — independent immutable values in this model — are untouched in
either case. -/
theorem claim_C8_amended (m : MutFixedPrim) (v : List Int) :
    ((m.values.len + v.length) % m.size ≠ 0 →
      (serializeFixedVec m v).2 = .error () ∧
      (serializeFixedVec m v).1.values.values = m.values.values ++ v ∧
      (serializeFixedVec m v).1.validity = m.validity) ∧
    ((m.values.len + v.length) % m.size = 0 →
      (serializeFixedVec m v).2 = .ok () ∧
      (serializeFixedVec m v).1.values.values = m.values.values ++ v ∧
      (serializeFixedVec m v).1.validity = m.validity.map (fun bs => bs ++ [true])) := by
  have hlen : (v.foldl (fun c x => c.push (some x)) m.values).len =
      m.values.len + v.length := by
    simp [MutPrim.len, foldl_push_some_values]
  constructor
  · intro h
    simp only [serializeFixedVec, MutFixedPrim.try_push_valid, hlen]
    rw [if_pos h]
    exact ⟨rfl, by simp [foldl_push_some_values], rfl⟩
  · intro h
    simp only [serializeFixedVec, MutFixedPrim.try_push_valid, hlen]
    rw [if_neg (not_not_intro h)]
    exact ⟨rfl, by simp [foldl_push_some_values], rfl⟩

/-- Witness for C8 (amended), exercising both branches: a 4-element vector
into a size-3 slot errors with the four items already committed, while a
6-element vector into a size-3 slot is accepted silently — no error, all six
items committed. -/
theorem claim_C8_amended_witness :
    (serializeFixedVec (MutFixedPrim.new 3) [5, 6, 7, 8]).2 = .error () ∧
    (serializeFixedVec (MutFixedPrim.new 3) [5, 6, 7, 8]).1.values.values =
      (MutFixedPrim.new 3).values.values ++ [5, 6, 7, 8] ∧
    (serializeFixedVec (MutFixedPrim.new 3) [1, 2, 3, 4, 5, 6]).2 = .ok () ∧
    (serializeFixedVec (MutFixedPrim.new 3) [1, 2, 3, 4, 5, 6]).1.values.values =
      [1, 2, 3, 4, 5, 6] := by
  have h1 := (claim_C8_amended (MutFixedPrim.new 3) [5, 6, 7, 8]).1 (by decide)
  have h2 := (claim_C8_amended (MutFixedPrim.new 3) [1, 2, 3, 4, 5, 6]).2 (by decide)
  exact ⟨h1.1, h1.2.1, h2.1, h2.2.1.trans rfl⟩

/-- C10: the decode preflight compares only the data type — for an i64
column it is `Int64` whether or not a validity bitmap is present — so a
column containing a null at some position passes the check when decoded as
plain (non-Option) i64 and the per-element `arrow_deserialize(v).unwrap()`
then panics instead of returning a typed error. -/
theorem claim_C10_nullability_unchecked (vs : List Int) (bs : Bitmap) (i : Nat)
    (hi : i < bs.length) (hlen : bs.length = vs.length)
    (hbit : bs.get ⟨i, hi⟩ = false) :
    (Arr.prim vs (some bs)).dataType = DataType.int64 ∧
    decodeVecI64 (Arr.prim vs (some bs)) = .panicked := by
  refine ⟨rfl, ?_⟩
  rw [decodeVecI64.eq_def,
    if_pos (show (Arr.prim vs (some bs)).dataType = DataType.int64 from rfl)]
  show collectUnwrap (zipValidityItems vs (some bs)) = .panicked
  apply collectUnwrap_panics
  have hzlen : i < (List.zipWith (fun b v => if b then some v else none) bs vs).length := by
    rw [List.length_zipWith]
    omega
  have heq : (List.zipWith (fun b v => if b then some v else none) bs vs)[i] = none := by
    rw [List.getElem_zipWith]
    have hb : bs[i] = false := hbit
    simp [hb]
  rw [zipValidityItems]
  exact List.mem_iff_getElem.mpr ⟨i, hzlen, heq⟩

/-- Witness for C10: the column [5, 6] with validity [true, false] passes
the preflight as Int64 and panics when decoded as plain i64. -/
theorem claim_C10_nullability_unchecked_witness :
    (Arr.prim [5, 6] (some [true, false])).dataType = DataType.int64 ∧
    decodeVecI64 (Arr.prim [5, 6] (some [true, false])) = .panicked :=
  claim_C10_nullability_unchecked [5, 6] [true, false] 1 (by decide) (by decide) (by decide)

/-- C3: appending `None` to a struct builder still pushes one null entry to
every child field builder, so every child column length equals the struct
column logical length after any append sequence (shown for the two-field
struct `Outer` and the one-field struct `StructA`); in particular encoding
[Some (StructA 1), None, Some (StructA 3)] produces a child column for `a`
of length 3 (with a default placeholder at the null position) and decoding
yields exactly [Some _, None, Some _]. -/
theorem claim_C3_struct_null_alignment :
    (∀ xs : List (Option Outer),
      (xs.foldl MutOuter.try_push MutOuter.new).field_inner.len = xs.length ∧
      (xs.foldl MutOuter.try_push MutOuter.new).field_b.len = xs.length) ∧
    (∀ xs : List (Option StructA),
      (xs.foldl MutStructA.try_push MutStructA.new).field_a.len = xs.length) ∧
    (encodeVecOptStructA [some ⟨1⟩, none, some ⟨3⟩] =
      .strukt StructA.dataType [.prim [1, 0, 3] (some [true, false, true])]
        (some [true, false, true])) ∧
    (roundTripVecOptStructA [some ⟨1⟩, none, some ⟨3⟩] =
      .ok [some ⟨1⟩, none, some ⟨3⟩]) := by
  refine ⟨?_, ?_, rfl, rt_vec_opt_structA _⟩
  · intro xs
    rw [outerState_of_new]
    constructor
    · rw [show (outerState xs).field_inner = structAState (xs.map (fun o => o.bind Outer.inner))
        from rfl, structAState_len]
      simp
    · simp [outerState, MutPrim.len, primState]
  · intro xs
    rw [structAState_of_new]
    have := structAState_len xs
    simpa [MutStructA.len] using this

/-- C9 counterexample: reconstructing a unit variant whose Bool payload is
false panics — it is not tolerated in any build, and in particular does not
yield the variant tag. -/
theorem claim_C9_counterexample :
    decodeVecDU (.union DU.dataType [0] [.boolean [false] none, .prim [] none] (some [0])) =
      .panicked ∧
    decodeVecDU (.union DU.dataType [0] [.boolean [false] none, .prim [] none] (some [0])) ≠
      .ok [DU.unit] := by
  constructor
  · rfl
  · decide

/-- C9 amended: the generated reader checks the unit-variant Bool payload
with `assert!(v.unwrap())`, which is active in every build profile: a true
payload reconstructs the variant tag, a false payload panics, for the dense
and the sparse reader alike.  There is no build-mode distinction anywhere in
the generated code. -/
theorem claim_C9_unit_payload_assert (b : Bool) :
    decodeVecDU (.union DU.dataType [0] [.boolean [b] none, .prim [] none] (some [0])) =
      (if b then .ok [DU.unit] else .panicked) ∧
    decodeVecSU (.union SU.dataType [0] [.boolean [b] none, .prim [0] (some [false])] none) =
      (if b then .ok [SU.unit] else .panicked) := by
  cases b <;> exact ⟨rfl, rfl⟩

/-! ## Dense-union builder invariants (derive_enum.rs) -/

/-- Variant tag of a `DU` value, as pushed onto the `types` buffer. -/
def duTag : DU → Int
  | .unit => 0
  | .payload _ => 1

/-- Whether a `DU` value is the unit variant. -/
def duIsUnit : DU → Bool
  | .unit => true
  | .payload _ => false

/-- Payload of a `DU` value, when present. -/
def duGetPayload : DU → Option Int
  | .unit => none
  | .payload x => some x

/-- The dense-union builder after the fold that `try_into_arrow` runs. -/
def duBuild (p : List DU) : MutDU :=
  p.foldl (fun m x => m.try_push (some x)) MutDU.new

/-- Specification of the dense offsets buffer: the entry for each element is
the running count of earlier elements of the same variant, starting from the
given counters. -/
def duOffsets : List DU → Nat → Nat → List Int
  | [], _, _ => []
  | .unit :: rest, cu, cp => (cu : Int) :: duOffsets rest (cu + 1) cp
  | .payload _ :: rest, cu, cp => (cp : Int) :: duOffsets rest cu (cp + 1)

/-- Closed form of the dense-union builder after pushing a sequence of
`Some` values. -/
def duState (p : List DU) : MutDU :=
  { vUnit := ⟨List.replicate (p.filter duIsUnit).length true, none⟩
    vPayload := ⟨p.filterMap duGetPayload, none⟩
    types := p.map duTag
    offsets := duOffsets p 0 0 }

theorem filterMap_payload_length (p : List DU) :
    (p.filterMap duGetPayload).length = (p.filter (fun y => !duIsUnit y)).length := by
  induction p with
  | nil => rfl
  | cons y rest ih => cases y <;> simp [duGetPayload, duIsUnit, ih]

theorem duOffsets_snoc_unit : ∀ (p : List DU) (cu cp : Nat),
    duOffsets (p ++ [DU.unit]) cu cp =
      duOffsets p cu cp ++ [((cu + (p.filter duIsUnit).length : Nat) : Int)] := by
  intro p
  induction p with
  | nil =>
      intro cu cp
      simp [duOffsets]
  | cons y rest ih =>
      intro cu cp
      cases y with
      | unit =>
          rw [List.cons_append]
          rw [show duOffsets (DU.unit :: (rest ++ [DU.unit])) cu cp
              = (cu : Int) :: duOffsets (rest ++ [DU.unit]) (cu + 1) cp from rfl]
          rw [show duOffsets (DU.unit :: rest) cu cp
              = (cu : Int) :: duOffsets rest (cu + 1) cp from rfl]
          rw [ih]
          simp [duIsUnit, List.filter_cons]
          ring
      | payload v =>
          rw [List.cons_append]
          rw [show duOffsets (DU.payload v :: (rest ++ [DU.unit])) cu cp
              = (cp : Int) :: duOffsets (rest ++ [DU.unit]) cu (cp + 1) from rfl]
          rw [show duOffsets (DU.payload v :: rest) cu cp
              = (cp : Int) :: duOffsets rest cu (cp + 1) from rfl]
          rw [ih]
          simp [duIsUnit, List.filter_cons]

theorem duOffsets_snoc_payload : ∀ (p : List DU) (cu cp : Nat) (v : Int),
    duOffsets (p ++ [DU.payload v]) cu cp =
      duOffsets p cu cp ++
        [((cp + (p.filter (fun y => !duIsUnit y)).length : Nat) : Int)] := by
  intro p
  induction p with
  | nil =>
      intro cu cp v
      simp [duOffsets]
  | cons y rest ih =>
      intro cu cp v
      cases y with
      | unit =>
          rw [List.cons_append]
          rw [show duOffsets (DU.unit :: (rest ++ [DU.payload v])) cu cp
              = (cu : Int) :: duOffsets (rest ++ [DU.payload v]) (cu + 1) cp from rfl]
          rw [show duOffsets (DU.unit :: rest) cu cp
              = (cu : Int) :: duOffsets rest (cu + 1) cp from rfl]
          rw [ih]
          simp [duIsUnit, List.filter_cons]
      | payload w =>
          rw [List.cons_append]
          rw [show duOffsets (DU.payload w :: (rest ++ [DU.payload v])) cu cp
              = (cp : Int) :: duOffsets (rest ++ [DU.payload v]) cu (cp + 1) from rfl]
          rw [show duOffsets (DU.payload w :: rest) cu cp
              = (cp : Int) :: duOffsets rest cu (cp + 1) from rfl]
          rw [ih]
          simp [duIsUnit, List.filter_cons]
          ring

theorem duState_push (p : List DU) (x : DU) :
    (duState p).try_push (some x) = duState (p ++ [x]) := by
  cases x with
  | unit =>
      simp only [duState, MutDU.try_push, MutPrim.push, MutPrim.len, duOffsets_snoc_unit,
        MutDU.mk.injEq]
      refine ⟨?_, ?_, ?_, ?_⟩
      · simp only [Option.map_none', MutPrim.mk.injEq, List.filter_append,
          List.length_append, and_true]
        rw [← List.replicate_succ']
        congr 1
      · simp [duGetPayload]
      · simp [duTag]
      · congr 1
        simp
  | payload v =>
      simp only [duState, MutDU.try_push, MutPrim.push, MutPrim.len, duOffsets_snoc_payload,
        MutDU.mk.injEq]
      refine ⟨?_, ?_, ?_, ?_⟩
      · simp [List.filter_append, duIsUnit, List.filter_cons]
      · simp [duGetPayload]
      · simp [duTag]
      · congr 1
        simp [filterMap_payload_length]

theorem duBuild_eq (p : List DU) : duBuild p = duState p := by
  have hgen : ∀ (ys q : List DU),
      ys.foldl (fun m x => m.try_push (some x)) (duState q) = duState (q ++ ys) := by
    intro ys
    induction ys with
    | nil => simp
    | cons x rest ih =>
        intro q
        simp only [List.foldl_cons, duState_push]
        rw [ih (q ++ [x])]
        simp
  have h0 : duState [] = MutDU.new := rfl
  rw [duBuild, ← h0, hgen]
  simp

theorem duOffsets_length : ∀ (p : List DU) (cu cp : Nat),
    (duOffsets p cu cp).length = p.length := by
  intro p
  induction p with
  | nil => intro cu cp; rfl
  | cons y rest ih =>
      intro cu cp
      cases y with
      | unit =>
          rw [show duOffsets (DU.unit :: rest) cu cp
              = (cu : Int) :: duOffsets rest (cu + 1) cp from rfl]
          simp [ih]
      | payload v =>
          rw [show duOffsets (DU.payload v :: rest) cu cp
              = (cp : Int) :: duOffsets rest cu (cp + 1) from rfl]
          simp [ih]

theorem duOffsets_getD_unit : ∀ (p : List DU) (i cu cp : Nat), i < p.length →
    p.getD i DU.unit = DU.unit →
    (duOffsets p cu cp).getD i 0 = ((cu + ((p.take i).filter duIsUnit).length : Nat) : Int) := by
  intro p
  induction p with
  | nil => intro i cu cp hi; simp at hi
  | cons y rest ih =>
      intro i cu cp hi hg
      cases i with
      | zero =>
          cases y with
          | unit => simp [duOffsets]
          | payload v => simp [List.getD] at hg
      | succ j =>
          have hj : j < rest.length := by simpa using hi
          have hg2 : rest.getD j DU.unit = DU.unit := by simpa [List.getD] using hg
          cases y with
          | unit =>
              rw [show duOffsets (DU.unit :: rest) cu cp
                  = (cu : Int) :: duOffsets rest (cu + 1) cp from rfl]
              simp only [List.getD_cons_succ, List.take_succ_cons, List.filter_cons]
              rw [ih j (cu + 1) cp hj hg2]
              simp [duIsUnit]
              ring
          | payload v =>
              rw [show duOffsets (DU.payload v :: rest) cu cp
                  = (cp : Int) :: duOffsets rest cu (cp + 1) from rfl]
              simp only [List.getD_cons_succ, List.take_succ_cons, List.filter_cons]
              rw [ih j cu (cp + 1) hj hg2]
              simp [duIsUnit]

theorem duOffsets_getD_payload : ∀ (p : List DU) (i cu cp : Nat) (x : Int), i < p.length →
    p.getD i DU.unit = DU.payload x →
    (duOffsets p cu cp).getD i 0 =
      ((cp + ((p.take i).filter (fun y => !duIsUnit y)).length : Nat) : Int) := by
  intro p
  induction p with
  | nil => intro i cu cp x hi; simp at hi
  | cons y rest ih =>
      intro i cu cp x hi hg
      cases i with
      | zero =>
          cases y with
          | unit => simp [List.getD] at hg
          | payload v => simp [duOffsets]
      | succ j =>
          have hj : j < rest.length := by simpa using hi
          have hg2 : rest.getD j DU.unit = DU.payload x := by simpa [List.getD] using hg
          cases y with
          | unit =>
              rw [show duOffsets (DU.unit :: rest) cu cp
                  = (cu : Int) :: duOffsets rest (cu + 1) cp from rfl]
              simp only [List.getD_cons_succ, List.take_succ_cons, List.filter_cons]
              rw [ih j (cu + 1) cp x hj hg2]
              simp [duIsUnit]
          | payload v =>
              rw [show duOffsets (DU.payload v :: rest) cu cp
                  = (cp : Int) :: duOffsets rest cu (cp + 1) from rfl]
              simp only [List.getD_cons_succ, List.take_succ_cons, List.filter_cons]
              rw [ih j cu (cp + 1) x hj hg2]
              simp [duIsUnit]
              ring

theorem filterMap_payload_getD : ∀ (p : List DU) (i : Nat) (x : Int), i < p.length →
    p.getD i DU.unit = DU.payload x →
    (p.filterMap duGetPayload).getD ((p.take i).filter (fun y => !duIsUnit y)).length 0 = x := by
  intro p
  induction p with
  | nil => intro i x hi; simp at hi
  | cons y rest ih =>
      intro i x hi hg
      cases i with
      | zero =>
          cases y with
          | unit => simp [List.getD] at hg
          | payload v =>
              have hx : v = x := by simpa [List.getD] using hg
              simp [duGetPayload, hx]
      | succ j =>
          have hj : j < rest.length := by simpa using hi
          have hg2 : rest.getD j DU.unit = DU.payload x := by simpa [List.getD] using hg
          cases y with
          | unit =>
              simp only [List.take_succ_cons, List.filter_cons, List.filterMap_cons]
              simpa [duIsUnit, duGetPayload] using ih j x hj hg2
          | payload v =>
              simp only [List.take_succ_cons, List.filter_cons, List.filterMap_cons]
              simpa [duIsUnit, duGetPayload] using ih j x hj hg2

theorem take_filter_lt_unit : ∀ (p : List DU) (i : Nat), i < p.length →
    p.getD i DU.unit = DU.unit →
    ((p.take i).filter duIsUnit).length < (p.filter duIsUnit).length := by
  intro p
  induction p with
  | nil => intro i hi; simp at hi
  | cons y rest ih =>
      intro i hi hg
      cases i with
      | zero =>
          cases y with
          | unit => simp [duIsUnit, List.filter_cons]
          | payload v => simp [List.getD] at hg
      | succ j =>
          have hj : j < rest.length := by simpa using hi
          have hg2 : rest.getD j DU.unit = DU.unit := by simpa [List.getD] using hg
          have := ih j hj hg2
          cases y <;> simp [duIsUnit, List.filter_cons] <;> omega

theorem replicate_getD_true (n k : Nat) (h : k < n) :
    (List.replicate n true).getD k false = true := by
  rw [List.getD_eq_getElem?_getD, List.getElem?_replicate]
  simp [h]

/-- C4 counterexample: appending `None` to the dense-union builder
(`try_push_none`, derive_enum.rs lines 177-191) pushes a type id but no
offsets entry, so the offsets buffer does NOT have one entry per logical
element: after a single `None` append the type-ids buffer has length 1 while
the offsets buffer has length 0. -/
theorem claim_C4_counterexample :
    ((MutDU.new).try_push (none : Option DU)).types.length = 1 ∧
    ((MutDU.new).try_push (none : Option DU)).offsets.length = 0 :=
  ⟨rfl, rfl⟩

/-- C4 (amended): for every sequence of `Some` appends to the dense-mode
union builder, after sealing: the offsets buffer has exactly one entry per
logical element (same length as the type-ids buffer); the type-ids buffer
records each element's variant tag; each variant column contains only that
variant's occurrences in order (the unit column is all-`true` of length equal
to the unit count, the payload column is exactly the payloads in order); and
`offsets[i]` is the index of element `i`'s payload inside the selected
variant's column — looking the offset up in that column recovers the
element's payload. The original claim fails once `None` appends are allowed
(see the counterexample). -/
theorem claim_C4_amended (p : List DU) :
    (duBuild p).offsets.length = (duBuild p).types.length ∧
    (duBuild p).types = p.map duTag ∧
    (duBuild p).vUnit.values = List.replicate (p.filter duIsUnit).length true ∧
    (duBuild p).vPayload.values = p.filterMap duGetPayload ∧
    (∀ i, i < p.length → p.getD i DU.unit = DU.unit →
      (duBuild p).offsets.getD i 0 = (((p.take i).filter duIsUnit).length : Int) ∧
      ((p.take i).filter duIsUnit).length < (duBuild p).vUnit.values.length ∧
      (duBuild p).vUnit.values.getD ((p.take i).filter duIsUnit).length false = true) ∧
    (∀ i x, i < p.length → p.getD i DU.unit = DU.payload x →
      (duBuild p).offsets.getD i 0 = (((p.take i).filter (fun y => !duIsUnit y)).length : Int) ∧
      (duBuild p).vPayload.values.getD
        ((p.take i).filter (fun y => !duIsUnit y)).length 0 = x) := by
  rw [duBuild_eq]
  refine ⟨?_, rfl, rfl, rfl, ?_, ?_⟩
  · simp [duState, duOffsets_length]
  · intro i hi hg
    refine ⟨?_, ?_, ?_⟩
    · rw [show (duState p).offsets = duOffsets p 0 0 from rfl]
      rw [duOffsets_getD_unit p i 0 0 hi hg]
      simp
    · rw [show (duState p).vUnit.values
          = List.replicate (p.filter duIsUnit).length true from rfl]
      simpa using take_filter_lt_unit p i hi hg
    · rw [show (duState p).vUnit.values
          = List.replicate (p.filter duIsUnit).length true from rfl]
      exact replicate_getD_true _ _ (take_filter_lt_unit p i hi hg)
  · intro i x hi hg
    refine ⟨?_, ?_⟩
    · rw [show (duState p).offsets = duOffsets p 0 0 from rfl]
      rw [duOffsets_getD_payload p i 0 0 x hi hg]
      simp
    · rw [show (duState p).vPayload.values = p.filterMap duGetPayload from rfl]
      exact filterMap_payload_getD p i x hi hg

/-- C4 witness: instantiating the amended dense-union invariant at the
sequence `[unit, payload 5, unit]` — element 1 is a payload whose offset is 0
and whose lookup in the payload column recovers 5, and element 2 is a unit
whose offset is 1. -/
theorem claim_C4_amended_witness :
    (duBuild [DU.unit, DU.payload 5, DU.unit]).offsets.getD 1 0 = (0 : Int) ∧
    (duBuild [DU.unit, DU.payload 5, DU.unit]).vPayload.values.getD 0 0 = 5 ∧
    (duBuild [DU.unit, DU.payload 5, DU.unit]).offsets.getD 2 0 = (1 : Int) := by
  have h := claim_C4_amended [DU.unit, DU.payload 5, DU.unit]
  have hp := h.2.2.2.2.2 1 5 (by decide) (by decide)
  have hu := h.2.2.2.2.1 2 (by decide) (by decide)
  exact ⟨hp.1, hp.2, hu.1⟩

/-! ## Slicing versus decoding (C5) -/

theorem sliceList_drop (xs : List α) (i : Nat) :
    sliceList xs i (xs.length - i) = xs.drop i := by
  simp only [sliceList]
  have h : (xs.drop i).length = xs.length - i := List.length_drop i xs
  rw [← h, List.take_length]

theorem zipValidityItems_drop (vs : List α) (va : Option Bitmap) (i : Nat) :
    zipValidityItems (vs.drop i) (va.map (fun bs => bs.drop i)) =
      (zipValidityItems vs va).drop i := by
  cases va with
  | none =>
      simp only [Option.map_none', zipValidityItems]
      exact List.map_drop some vs i
  | some bs =>
      simp only [Option.map_some', zipValidityItems]
      exact (List.drop_zipWith).symm

theorem zipValidityItems_length (vs : List α) (va : Option Bitmap)
    (h : ∀ bs, va = some bs → bs.length = vs.length) :
    (zipValidityItems vs va).length = vs.length := by
  cases va with
  | none => simp [zipValidityItems]
  | some bs => simp [zipValidityItems, h bs rfl]

theorem sliced_prim_drop (vs : List Int) (va : Option Bitmap) (i : Nat)
    (hwf : ∀ bs, va = some bs → bs.length = vs.length) :
    (Arr.prim vs va).sliced i (vs.length - i) =
      .prim (vs.drop i) (va.map (fun bs => bs.drop i)) := by
  rw [Arr.sliced]
  cases va with
  | none => simp [sliceValidity, sliceList_drop]
  | some bs =>
      have hb := hwf bs rfl
      simp only [sliceValidity, Option.map_some']
      rw [sliceList_drop, ← hb, sliceList_drop]

theorem sliced_strukt_single (dt : DataType) (c : Arr) (va : Option Bitmap) (i len : Nat) :
    (Arr.strukt dt [c] va).sliced i len =
      .strukt dt [c.sliced i len] (sliceValidity va i len) := by
  rw [Arr.sliced]
  rfl

theorem structACollect_next_none (st : StructAIter)
    (h : st.next = (.ok none, st)) : st.collect = .ok [] := by
  rw [StructAIter.collect]
  split <;> rename_i heq <;> rw [h] at heq <;> cases heq

theorem structACollect_step (st st2 : StructAIter) (item : Option StructA)
    (h : st.next = (.ok (some item), st2)) :
    st.collect = (st2.collect).map (fun l => item :: l) := by
  conv_lhs => rw [StructAIter.collect]
  split <;> rename_i heq <;> rw [h] at heq <;> cases heq
  rfl

theorem structACollect_panicked (st st2 : StructAIter)
    (h : st.next = (.panicked, st2)) : st.collect = .panicked := by
  rw [StructAIter.collect]
  split <;> rename_i heq <;> rw [h] at heq <;> cases heq

theorem structACollect_tail (items : List (Option Int)) (bs : Bitmap) (hv : Bool)
    (l : List (Option StructA))
    (hlen : hv = true → bs.length = items.length)
    (hempty : hv = false → bs = [])
    (h : StructAIter.collect ⟨items, bs, hv⟩ = .ok l) :
    StructAIter.collect ⟨items.tail, bs.tail, hv⟩ = .ok l.tail := by
  cases hv with
  | false =>
      have hbs := hempty rfl
      subst hbs
      cases items with
      | nil =>
          have h0 : StructAIter.collect (⟨[], [], false⟩ : StructAIter) = .ok [] :=
            structACollect_next_none _ (by simp [StructAIter.next])
          rw [h0] at h
          cases h
          simpa using h0
      | cons it rest =>
          cases it with
          | none =>
              rw [structACollect_panicked _ _
                (show StructAIter.next ⟨none :: rest, [], false⟩
                  = (.panicked, ⟨rest, [], false⟩) from by simp [StructAIter.next])] at h
              cases h
          | some v =>
              rw [structACollect_step _ _ _
                (show StructAIter.next ⟨some v :: rest, [], false⟩
                  = (.ok (some (some ⟨v⟩)), ⟨rest, [], false⟩) from by
                    simp [StructAIter.next])] at h
              cases hrec : StructAIter.collect (⟨rest, [], false⟩ : StructAIter) with
              | ok l2 =>
                  rw [hrec] at h
                  simp only [DecodeResult.map] at h
                  cases h
                  simpa [List.tail] using hrec
              | err =>
                  rw [hrec] at h
                  simp [DecodeResult.map] at h
              | panicked =>
                  rw [hrec] at h
                  simp [DecodeResult.map] at h
  | true =>
      have hlen2 := hlen rfl
      cases bs with
      | nil =>
          have hit : items = [] := by
            cases items with
            | nil => rfl
            | cons a b => simp at hlen2
          subst hit
          have h0 : StructAIter.collect (⟨[], [], true⟩ : StructAIter) = .ok [] :=
            structACollect_next_none _ (by simp [StructAIter.next])
          rw [h0] at h
          cases h
          simpa using h0
      | cons b bsr =>
          cases items with
          | nil => simp at hlen2
          | cons it rest =>
              cases b with
              | true =>
                  cases it with
                  | none =>
                      rw [structACollect_panicked _ _
                        (show StructAIter.next ⟨none :: rest, true :: bsr, true⟩
                          = (.panicked, ⟨rest, bsr, true⟩) from by
                            simp [StructAIter.next])] at h
                      cases h
                  | some v =>
                      rw [structACollect_step _ _ _
                        (show StructAIter.next ⟨some v :: rest, true :: bsr, true⟩
                          = (.ok (some (some ⟨v⟩)), ⟨rest, bsr, true⟩) from by
                            simp [StructAIter.next])] at h
                      cases hrec : StructAIter.collect (⟨rest, bsr, true⟩ : StructAIter) with
                      | ok l2 =>
                          rw [hrec] at h
                          simp only [DecodeResult.map] at h
                          cases h
                          simpa [List.tail] using hrec
                      | err =>
                          rw [hrec] at h
                          simp [DecodeResult.map] at h
                      | panicked =>
                          rw [hrec] at h
                          simp [DecodeResult.map] at h
              | false =>
                  rw [structACollect_step _ _ _
                    (show StructAIter.next ⟨it :: rest, false :: bsr, true⟩
                      = (.ok (some none), ⟨rest, bsr, true⟩) from by
                        simp [StructAIter.next, List.tail])] at h
                  cases hrec : StructAIter.collect (⟨rest, bsr, true⟩ : StructAIter) with
                  | ok l2 =>
                      rw [hrec] at h
                      simp only [DecodeResult.map] at h
                      cases h
                      simpa [List.tail] using hrec
                  | err =>
                      rw [hrec] at h
                      simp [DecodeResult.map] at h
                  | panicked =>
                      rw [hrec] at h
                      simp [DecodeResult.map] at h

theorem structACollect_drop (i : Nat) :
    ∀ (items : List (Option Int)) (bs : Bitmap) (hv : Bool) (l : List (Option StructA)),
    (hv = true → bs.length = items.length) → (hv = false → bs = []) →
    StructAIter.collect ⟨items, bs, hv⟩ = .ok l →
    StructAIter.collect ⟨items.drop i, bs.drop i, hv⟩ = .ok (l.drop i) := by
  induction i with
  | zero =>
      intro items bs hv l h1 h2 h
      simpa using h
  | succ j ih =>
      intro items bs hv l h1 h2 h
      have hj := ih items bs hv l h1 h2 h
      have h1j : hv = true → (bs.drop j).length = (items.drop j).length := by
        intro ht
        simp [h1 ht]
      have h2j : hv = false → bs.drop j = [] := by
        intro hf
        simp [h2 hf]
      have ht := structACollect_tail _ _ _ _ h1j h2j hj
      simpa [List.tail_drop] using ht

theorem decodeVecOptI64_prim (vs : List Int) (va : Option Bitmap) :
    decodeVecOptI64 (.prim vs va) = .ok (zipValidityItems vs va) := rfl

theorem decodeVecOptStructA_prim_child (xs : List Int) (xva yva : Option Bitmap) :
    decodeVecOptStructA (.strukt StructA.dataType [.prim xs xva] yva)
      = StructAIter.collect ⟨zipValidityItems xs xva, yva.getD [], yva.isSome⟩ := rfl

/-- C5 counterexample: slicing a sealed dense-union column does not commute
with decoding.  `Array::sliced` on a `UnionArray` slices the type-ids and
offsets buffers but leaves the variant arrays untouched, while the generated
union iterator walks each variant array sequentially from its start and never
consults the offsets buffer; decoding the slice `[1, 2)` of the encoding of
`[Payload 5, Payload 7]` therefore yields `[Payload 5]`, not the dropped
suffix `[Payload 7]`. -/
theorem claim_C5_counterexample :
    decodeVecDU (encodeVecDU [DU.payload 5, DU.payload 7])
      = .ok [DU.payload 5, DU.payload 7] ∧
    (encodeVecDU [DU.payload 5, DU.payload 7]).len = 2 ∧
    decodeVecDU ((encodeVecDU [DU.payload 5, DU.payload 7]).sliced 1 1)
      = .ok [DU.payload 5] ∧
    [DU.payload 5] ≠ [DU.payload 5, DU.payload 7].drop 1 := by
  refine ⟨rfl, rfl, ?_, by decide⟩
  have henc : encodeVecDU [DU.payload 5, DU.payload 7]
      = .union DU.dataType [1, 1] [.boolean [] none, .prim [5, 7] none] (some [0, 1]) := rfl
  rw [henc, Arr.sliced]
  rfl

/-- C5 (amended): slice-then-decode agrees with decode-then-drop for
primitive columns and for struct columns (whose `sliced` adjusts values,
validity and every child), for every start index `i` of the slice `[i, n)`:
(1) for a primitive nullable-i64 column with a well-formed validity bitmap,
decoding the slice equals decoding the full column and dropping `i`
elements; (2) for a sealed `StructA` column with well-formed child and
struct bitmaps, if the full column decodes successfully then the slice
decodes to the dropped suffix.  The property fails for dense-union columns,
whose variant arrays are not slice-adjusted (see the counterexample). -/
theorem claim_C5_amended :
    (∀ (vs : List Int) (va : Option Bitmap) (i : Nat),
      (∀ bs, va = some bs → bs.length = vs.length) →
      decodeVecOptI64 ((Arr.prim vs va).sliced i (vs.length - i)) =
        (decodeVecOptI64 (Arr.prim vs va)).map (fun l => l.drop i)) ∧
    (∀ (vs : List Int) (cva va : Option Bitmap) (i : Nat) (l : List (Option StructA)),
      (∀ cbs, cva = some cbs → cbs.length = vs.length) →
      (∀ bs, va = some bs → bs.length = vs.length) →
      decodeVecOptStructA (.strukt StructA.dataType [.prim vs cva] va) = .ok l →
      decodeVecOptStructA
          ((Arr.strukt StructA.dataType [.prim vs cva] va).sliced i (vs.length - i)) =
        .ok (l.drop i)) := by
  constructor
  · intro vs va i hwf
    rw [sliced_prim_drop vs va i hwf, decodeVecOptI64_prim, decodeVecOptI64_prim,
      zipValidityItems_drop]
    rfl
  · intro vs cva va i l hcwf hwf hdec
    rw [decodeVecOptStructA_prim_child] at hdec
    have hlen : va.isSome = true → (va.getD []).length = (zipValidityItems vs cva).length := by
      intro ht
      cases va with
      | none => simp at ht
      | some bs =>
          simp only [Option.getD_some]
          rw [zipValidityItems_length vs cva hcwf]
          exact hwf bs rfl
    have hempty : va.isSome = false → va.getD [] = [] := by
      cases va with
      | none => intro hf; rfl
      | some bs => intro hf; simp at hf
    have hdrop := structACollect_drop i _ _ _ _ hlen hempty hdec
    rw [sliced_strukt_single, sliced_prim_drop vs cva i hcwf,
      decodeVecOptStructA_prim_child]
    have hgetD : (sliceValidity va i (vs.length - i)).getD [] = (va.getD []).drop i := by
      cases va with
      | none => simp [sliceValidity]
      | some bs =>
          simp only [sliceValidity, Option.map_some', Option.getD_some]
          rw [← hwf bs rfl, sliceList_drop]
    have hisSome : (sliceValidity va i (vs.length - i)).isSome = va.isSome := by
      cases va <;> simp [sliceValidity]
    rw [zipValidityItems_drop, hgetD, hisSome]
    exact hdrop

/-- C5 witness: instantiating the amended slicing property at a concrete
primitive column (values `[3, 4, 5]`, bitmap `[true, false, true]`, slice
from index 1) and a concrete `StructA` column (child values `[1, 2]`, no
bitmaps, slice from index 1). -/
theorem claim_C5_amended_witness :
    decodeVecOptI64 ((Arr.prim [3, 4, 5] (some [true, false, true])).sliced 1 2) =
      .ok [none, some 5] ∧
    decodeVecOptStructA ((Arr.strukt StructA.dataType [Arr.prim [1, 2] none] none).sliced 1 1) =
      .ok [some ⟨2⟩] := by
  have hdec : decodeVecOptStructA (Arr.strukt StructA.dataType [Arr.prim [1, 2] none] none)
      = .ok [some ⟨1⟩, some ⟨2⟩] := by
    have hst : decodeVecOptStructA (Arr.strukt StructA.dataType [Arr.prim [1, 2] none] none)
        = StructAIter.collect (structAIterSt [some ⟨1⟩, some ⟨2⟩] false) := rfl
    rw [hst]
    exact structACollect_st [some ⟨1⟩, some ⟨2⟩] false (by intro hf; decide)
  have h1 := claim_C5_amended.1 [3, 4, 5] (some [true, false, true]) 1
    (by intro bs hbs; cases hbs; rfl)
  have h2 := claim_C5_amended.2 [1, 2] none none 1 [some ⟨1⟩, some ⟨2⟩]
    (by intro cbs hcbs; cases hcbs)
    (by intro bs hbs; cases hbs)
    hdec
  exact ⟨h1.trans rfl, h2⟩
